import Mathlib

/-!
Shallow embedding of the bingo-cards repository
(src/make_bingo_cards.py and src/draw_bingo_values.py) and proofs about it.

Conventions:
- Python dicts of column values are association lists in insertion order,
  the Python key `None` is `none`.
- Python exceptions (KeyError, IndexError, ValueError) and the error paths
  of `main` are `Except` errors.
- The calls to `random.shuffle` and `random.randint` are modelled by an
  explicit `Rng`: `shuf i` is the permutation the `i`-th shuffle of a card
  applies, `rRow`/`rCol` are the `randint` draws. Theorems that need the
  `random.shuffle` contract assume each `shuf i` permutes its input.
- Python string methods used by the scripts (`split`, `rstrip`, `replace`,
  `lower`) are implemented over the character list of the string.
-/

namespace Bingo

/-- A Python dict mapping an optional column label to the list of values of
that column, in insertion order (`valuesDict` in make_bingo_cards.py). A
label-less pool is the single key `none`. -/
abbrev Pool := List (Option String × List String)

/-- All values of the dict, in column order: the merged list the scatter
branch builds (make_bingo_cards.py lines 116-118). -/
def flatPool (d : Pool) : List String := (d.map (fun kv => kv.2)).flatten

/-- Python dict lookup `d[k]`: the list of the first entry with key `k`. -/
def lookupCol : Pool → Option String → Option (List String)
  | [], _ => none
  | (k1, vs) :: rest, k => if k1 = k then some vs else lookupCol rest k

/-- Python dict assignment `d[k] = l` for a key already present. -/
def setCol : Pool → Option String → List String → Pool
  | [], _, _ => []
  | (k1, vs) :: rest, k, l =>
    if k1 = k then (k1, l) :: rest else (k1, vs) :: setCol rest k l

/-- Python `k in d`. -/
def hasKey (d : Pool) (k : Option String) : Bool := (lookupCol d k).isSome

/-- Python `del d[k]`. -/
def removeKey (d : Pool) (k : Option String) : Pool :=
  d.filter (fun kv => kv.1 != k)

/-- Error sites of make_cards: `keyMissing` = KeyError on a dict lookup,
`popEmpty` = IndexError of `list.pop()` on an empty list (line 137),
`labelOob` = IndexError of `columnLabelList[iCol]` (line 129), `cellOob` =
IndexError of a grid index (lines 149-150, 169), `layoutKey` = KeyError of
`pageLayoutDict[nCardsPerPage]` (line 95). -/
inductive Err where
  | keyMissing
  | popEmpty
  | labelOob
  | cellOob
  | layoutKey
deriving DecidableEq

/-- `shuffleDict[row].pop()` (line 137): remove and return the last element
of the list stored at key `k`. -/
def popFrom : Pool → Option String → Except Err (String × Pool)
  | [], _ => .error .keyMissing
  | (k1, vs) :: rest, k =>
    if k1 = k then
      match vs.getLast? with
      | none => .error .popEmpty
      | some v => .ok (v, (k1, vs.dropLast) :: rest)
    else
      match popFrom rest k with
      | .error e => .error e
      | .ok (v, d1) => .ok (v, (k1, vs) :: d1)

/-- The `for row in rowIter` loop (lines 132-137): pop `n` values from the
column keyed `k`, in pop order. -/
def popN : Nat → Pool → Option String → Except Err (List String × Pool)
  | 0, d, _ => .ok ([], d)
  | n+1, d, k =>
    match popFrom d k with
    | .error e => .error e
    | .ok (v, d1) =>
      match popN n d1 k with
      | .error e => .error e
      | .ok (vs, d2) => .ok (v :: vs, d2)

/-- Number of header cells at the top of every column list: 1 when column
labels are used (line 129), otherwise 0 (line 131). -/
def labelLen (labels : Option (List String)) : Nat := if labels.isSome then 1 else 0

/-- `cardTextDict[iCol] = [columnLabelList[iCol]]` or `[]` (lines 128-131). -/
def labelCell (labels : Option (List String)) (iCol : Nat) : Except Err (List String) :=
  match labels with
  | none => .ok []
  | some ls =>
    match getElem? ls iCol with
    | none => .error .labelOob
    | some l => .ok [l]

/-- The `for iCol,colName in enumerate(colIter)` loop (lines 126-137):
build the per-column cell lists, threading the working dict through the
pops. -/
def populateAux (labels : Option (List String)) (nRows : Nat) :
    List (Option String) → Nat → Pool → Except Err (List (List String) × Pool)
  | [], _, d => .ok ([], d)
  | k :: ks, iCol, d =>
    match labelCell labels iCol with
    | .error e => .error e
    | .ok head =>
      match popN nRows d k with
      | .error e => .error e
      | .ok (vs, d1) =>
        match populateAux labels nRows ks (iCol+1) d1 with
        | .error e => .error e
        | .ok (cols, d2) => .ok ((head ++ vs) :: cols, d2)

/-- One transposed row (lines 149-150): the `i`-th entry of every column. -/
def transposeRow : List (List String) → Nat → Except Err (List String)
  | [], _ => .ok []
  | c :: cs, i =>
    match getElem? c i with
    | none => .error .cellOob
    | some v =>
      match transposeRow cs i with
      | .error e => .error e
      | .ok r => .ok (v :: r)

/-- The `for iRow in range(nRowsPrinted)` transpose loop (lines 142-150),
with `i` the next row index. -/
def transposeGridAux (cols : List (List String)) : Nat → Nat → Except Err (List (List String))
  | 0, _ => .ok []
  | n+1, i =>
    match transposeRow cols i with
    | .error e => .error e
    | .ok row =>
      match transposeGridAux cols n (i+1) with
      | .error e => .error e
      | .ok rows => .ok (row :: rows)

/-- `cardTextList` built from `cardTextDict` (lines 142-150). -/
def transposeGrid (cols : List (List String)) (n : Nat) : Except Err (List (List String)) :=
  transposeGridAux cols n 0

/-- The free-space marker `'☆'` (line 169). -/
def star : String := "☆"

/-- `cardTextList[i][j] = v` (line 169), failing like Python on an
out-of-range index. -/
def setCell (g : List (List String)) (i j : Nat) (v : String) :
    Except Err (List (List String)) :=
  match getElem? g i with
  | none => .error .cellOob
  | some row =>
    if j < row.length then .ok (g.set i (row.set j v)) else .error .cellOob

/-- The randomness one card consumes: `shuf i` is the permutation applied by
the `i`-th `random.shuffle` call of the card, `rRow`/`rCol` the
`randint(0, nRows-1)` / `randint(0, nCols-1)` draws (lines 159, 168). -/
structure Rng where
  shuf : Nat → List String → List String
  rRow : Nat
  rCol : Nat

/-- The make_cards parameters one card depends on. -/
structure CardParams where
  nRows : Nat
  nCols : Nat
  scatter : Bool
  useFreeSpace : Bool
  columnLabelList : Option (List String)

/-- Lines 121-124: `for k in valuesDict: shuffle(shuffleDict[k])`, the
column at position `i` shuffled by `shuf i`. -/
def shuffleEach (shuf : Nat → List String → List String) : Nat → Pool → Pool
  | _, [] => []
  | i, kv :: rest => (kv.1, shuf i kv.2) :: shuffleEach shuf (i+1) rest

/-- Lines 106-124: the working copy `shuffleDict` after shuffling. In
scatter mode all values are merged into the `none` entry and shuffled once
(lines 107-119); otherwise every column is shuffled in place (lines
120-124). The deep copy itself leaves the dict value unchanged. -/
def prepareShuffleDict (shuf : Nat → List String → List String) (scatter : Bool)
    (d : Pool) : Pool :=
  if scatter then
    match lookupCol d none with
    | some vs => setCol d none (shuf 0 vs)
    | none => d ++ [(none, shuf 0 (flatPool d))]
  else shuffleEach shuf 0 d

/-- Lines 82-88: the keys iterated as column slots, `(None,) * nCols` in
scatter mode, otherwise `valuesDict.keys()`. -/
def colIterKeys (scatter : Bool) (nCols : Nat) (keys : List (Option String)) :
    List (Option String) :=
  if scatter then List.replicate nCols none else keys

/-- `iRowFree` (lines 154-161): middle data row for an odd row count, the
`randint` draw otherwise, shifted one down when a label row exists. -/
def freeRowIdx (p : CardParams) (rng : Rng) : Nat :=
  (if p.nRows % 2 ≠ 0 then p.nRows / 2 else rng.rRow) + labelLen p.columnLabelList

/-- `iColFree` (lines 162-168). -/
def freeColIdx (p : CardParams) (rng : Rng) : Nat :=
  if p.nCols % 2 ≠ 0 then p.nCols / 2 else rng.rCol

/-- The per-card loop body (lines 100-169): the finished grid of cell texts
handed to the table renderer. -/
def makeCard (rng : Rng) (p : CardParams) (valuesDict : Pool) :
    Except Err (List (List String)) :=
  let shuffleDict := prepareShuffleDict rng.shuf p.scatter valuesDict
  let ks := colIterKeys p.scatter p.nCols (valuesDict.map (fun kv => kv.1))
  match populateAux p.columnLabelList p.nRows ks 0 shuffleDict with
  | .error e => .error e
  | .ok (cols, _) =>
    let nRowsPrinted := if p.columnLabelList.isSome then p.nRows + 1 else p.nRows
    match transposeGrid cols nRowsPrinted with
    | .error e => .error e
    | .ok grid =>
      if p.useFreeSpace then setCell grid (freeRowIdx p rng) (freeColIdx p rng) star
      else .ok grid

/-- `pageLayoutDict` (lines 67-70), as (axis rows, axis columns). -/
def pageLayout (n : Nat) : Option (Nat × Nat) :=
  if n = 1 then some (1, 1)
  else if n = 2 then some (2, 1)
  else if n = 4 then some (2, 2)
  else none

/-- `ceil(nCards / nCardsPerPage)` (line 74) on naturals. -/
def ceilDiv (a b : Nat) : Nat := (a + b - 1) / b

/-- `int(cardSize[0])` / `int(cardSize[-1])` (lines 77-78) for the
one-digit size tokens the CLI accepts. -/
def charDigit (c : Char) : Nat := c.toNat - 48

def cardRows (s : String) : Nat := charDigit (s.data.headD '0')

def cardCols (s : String) : Nat := charDigit (s.data.getLastD '0')

/-- The `for ax in axArr.flat` loop (lines 100-169): a page renders one card
per subplot axis, i.e. exactly axis-rows times axis-columns cards; `idx`
numbers the cards so each consumes its own randomness. -/
def makePage (rng : Nat → Rng) (p : CardParams) (d : Pool) :
    Nat → Nat → Except Err (List (List (List String)))
  | _, 0 => .ok []
  | idx, c+1 =>
    match makeCard (rng idx) p d with
    | .error e => .error e
    | .ok g =>
      match makePage rng p d (idx+1) c with
      | .error e => .error e
      | .ok gs => .ok (g :: gs)

/-- The `for p in range(nPages)` loop (lines 93-206). -/
def makePages (rng : Nat → Rng) (p : CardParams) (d : Pool) (perPage : Nat) :
    Nat → Nat → Except Err (List (List (List (List String))))
  | 0, _ => .ok []
  | n+1, idx =>
    match makePage rng p d idx perPage with
    | .error e => .error e
    | .ok pg =>
      match makePages rng p d perPage n (idx + perPage) with
      | .error e => .error e
      | .ok rest => .ok (pg :: rest)

/-- `make_cards` (lines 31-207): the written document as its list of pages,
each page the list of card grids drawn on it. (The page-layout lookup of
line 95 sits inside the page loop in the source; its dict is constant, so it
is checked once here.) -/
def makeCards (rng : Nat → Rng) (valuesDict : Pool) (nCards : Nat) (cardSize : String)
    (columnLabelList : Option (List String)) (nCardsPerPage : Nat)
    (scatter useFreeSpace : Bool) :
    Except Err (List (List (List (List String)))) :=
  match pageLayout nCardsPerPage with
  | none => .error .layoutKey
  | some (nAxRows, nAxCols) =>
    let p : CardParams :=
      ⟨cardRows cardSize, cardCols cardSize, scatter, useFreeSpace, columnLabelList⟩
    makePages rng p valuesDict (nAxRows * nAxCols) (ceilDiv nCards nCardsPerPage) 0

/-- Python whitespace, for `str.rstrip()`. -/
def isPySpace (c : Char) : Bool :=
  c = ' ' || c = '\t' || c = '\n' || c = '\r' || c = '\x0b' || c = '\x0c'

/-- `str.rstrip()` over the character list. -/
def rstripChars (cs : List Char) : List Char := (cs.reverse.dropWhile isPySpace).reverse

/-- `str.replace('\\n', '\n')`: decode the two-character escape, left to
right. -/
def replaceEscNl : List Char → List Char
  | [] => []
  | '\\' :: 'n' :: rest => '\n' :: replaceEscNl rest
  | c :: rest => c :: replaceEscNl rest

/-- `x.rstrip().replace('\\n', '\n')` (lines 312, 322 of the card script;
lines 81, 91 of the draw script). -/
def pyDecode (cs : List Char) : String := String.mk (replaceEscNl (rstripChars cs))

/-- Python `str.split('::')`: split on each non-overlapping occurrence, left
to right; `acc` holds the current piece reversed. -/
def splitColonsAux : List Char → List Char → List (List Char)
  | acc, ':' :: ':' :: rest => acc.reverse :: splitColonsAux [] rest
  | acc, c :: rest => splitColonsAux (c :: acc) rest
  | acc, [] => [acc.reverse]

def splitColons (s : String) : List (List Char) := splitColonsAux [] s.data

/-- Python `str.split(',')`. -/
def splitCommasAux : List Char → List Char → List (List Char)
  | acc, ',' :: rest => acc.reverse :: splitCommasAux [] rest
  | acc, c :: rest => splitCommasAux (c :: acc) rest
  | acc, [] => [acc.reverse]

def splitCommas (s : String) : List String := (splitCommasAux [] s.data).map String.mk

/-- The spec's `InputError`: `noValues` is the ValueError both scripts raise
on an empty value file (make script lines 299-301, draw script lines
68-70); `badLine` is the IndexError of `lineSp[1]` when a later line of a
labeled file has no `::`. -/
inductive LoadErr where
  | noValues
  | badLine
deriving DecidableEq

/-- `spaceValuesDict[label].append(value)` grouping, keeping first-seen
label order (lines 313-316). -/
def insertVal (d : Pool) (k : Option String) (v : String) : Pool :=
  if hasKey d k then
    d.map (fun kv => if kv.1 = k then (kv.1, kv.2 ++ [v]) else kv)
  else d ++ [(k, [v])]

/-- The labeled-line parse loop (lines 306-316). -/
def parseLabeled : List String → Pool → Except LoadErr Pool
  | [], d => .ok d
  | line :: rest, d =>
    match getElem? (splitColons line) 1 with
    | none => .error .badLine
    | some raw =>
      parseLabeled rest
        (insertVal d (some (String.mk ((splitColons line).headD []))) (pyDecode raw))

/-- Loading a value file given as its list of lines: the shared logic of
make_bingo_cards.py lines 296-322 and draw_bingo_values.py lines 65-91
(label detection looks only at the first line). -/
def loadValueLines (lines : List String) : Except LoadErr Pool :=
  match lines with
  | [] => .error .noValues
  | l0 :: _ =>
    if (splitColons l0).length > 1 then parseLabeled lines []
    else .ok [(none, lines.map (fun l => pyDecode l.data))]

/-- `[str(x) for x in range(a, a+len)]`. -/
def numStrs (a len : Nat) : List String := (List.range' a len).map (fun n => toString n)

/-- The built-in standard pool (make script lines 289-294, draw script lines
52-57): B=1-15, I=16-30, N=31-45, G=46-60, O=61-75. -/
def standardPool : Pool :=
  [(some "B", numStrs 1 15), (some "I", numStrs 16 15), (some "N", numStrs 31 15),
   (some "G", numStrs 46 15), (some "O", numStrs 61 15)]

/-- draw_bingo_values.py lines 58-63: delete columns G and O for 3x3, and
column O for 4x4. -/
def builtinDrawPool (cardSize : String) : Pool :=
  if cardSize = "3x3" then removeKey (removeKey standardPool (some "G")) (some "O")
  else if cardSize = "4x4" then removeKey standardPool (some "O")
  else standardPool

/-- Top-level outcomes of the card script's `main`: `inputError` is the
uncaught ValueError of the loader, `configError` the printed label-count
error of lines 335-341 (graceful return, no document written), `cardErr` an
exception escaping make_cards. -/
inductive MainErr where
  | inputError (e : LoadErr)
  | configError
  | cardErr (e : Err)

/-- Lines 326-341: with a labeled pool, keep only the first nCols keys when
there are too many, and fail when there are fewer keys than card columns. -/
def reconcileDict (d : Pool) (nCols : Nat) : Except MainErr Pool :=
  if hasKey d none then .ok d
  else if nCols < d.length then .ok (d.take nCols)
  else if d.length < nCols then .error .configError
  else .ok d

/-- Lines 272-281: the column-label list handed to make_cards; labels are
dropped when their count differs from the column count. -/
def deriveColLabels (columnLabelsOff : Bool) (columnLabels : String) (nCols : Nat) :
    Option (List String) :=
  if columnLabelsOff then none
  else
    let colList := splitCommas columnLabels
    if nCols ≠ colList.length then none else some colList

/-- The CLI arguments of make_bingo_cards.py that reach the modelled logic
(title, font size and output path only affect rendering); a value file is
given as its list of lines, `none` meaning the flag was absent. -/
structure GenArgs where
  nCards : Nat
  cardSize : String
  cardsPerPage : Nat
  columnLabels : String
  columnLabelsOff : Bool
  noFree : Bool
  scatter : Bool
  valueFile : Option (List String)

/-- `main()` of make_bingo_cards.py (lines 210-349). -/
def cardGenMain (rng : Nat → Rng) (a : GenArgs) :
    Except MainErr (List (List (List (List String)))) :=
  let nCols := cardCols a.cardSize
  let colList := deriveColLabels a.columnLabelsOff a.columnLabels nCols
  let poolE : Except MainErr Pool :=
    match a.valueFile with
    | none => .ok standardPool
    | some lines =>
      match loadValueLines lines with
      | .error e => .error (.inputError e)
      | .ok d => .ok d
  match poolE with
  | .error e => .error e
  | .ok d =>
    match reconcileDict d nCols with
    | .error e => .error e
    | .ok d1 =>
      match makeCards rng d1 a.nCards a.cardSize colList a.cardsPerPage
          a.scatter (!a.noFree) with
      | .error e => .error (.cardErr e)
      | .ok doc => .ok doc

/-- `DrawValue_t` (draw_bingo_values.py line 11). -/
structure DrawValue where
  label : String
  value : String
deriving DecidableEq

/-- Lines 93-103: flatten the dict into (label, value) pairs; an unlabeled
pool gets the empty label. -/
def flattenDraw (d : Pool) : List DrawValue :=
  match lookupCol d none with
  | some vs => vs.map (fun v => ⟨"", v⟩)
  | none => (d.map (fun kv => kv.2.map (fun v => (⟨kv.1.getD "", v⟩ : DrawValue)))).flatten

/-- ASCII `str.lower()`, enough for the `userInput.lower() == 'q'` test of
line 120. -/
def pyLower (s : String) : String := String.mk (s.data.map Char.toLower)

/-- One run of the interactive draw loop (lines 109-124): `inputs step` is
the operator's reply after the `step`-th draw; the fuel is set to the list
length by the wrapper (the loop pops exactly one value per iteration).
Returns the emitted (counter, value) pairs, the values still in the list,
and the final `drawAgain` flag. -/
def drawLoopF (inputs : Nat → String) :
    Nat → List DrawValue → Nat → Nat →
      List (Nat × DrawValue) × List DrawValue × Bool
  | 0, l, _, _ => ([], l, true)
  | fuel+1, l, count, step =>
    match l.getLast? with
    | none => ([], l, true)
    | some v =>
      let rest := l.dropLast
      if pyLower (inputs step) = "q" then ([(count+1, v)], rest, false)
      else
        let r := drawLoopF inputs fuel rest (count+1) (step+1)
        ((count+1, v) :: r.1, r.2.1, r.2.2)

/-- The `while drawValuesList and drawAgain` loop (lines 109-124), starting
with `drawCount = 0`. -/
def drawLoop (inputs : Nat → String) (l : List DrawValue) :
    List (Nat × DrawValue) × List DrawValue × Bool :=
  drawLoopF inputs l.length l 0 0

/-- Whether lines 122-124 print the all-values-drawn notice. -/
def exhaustedNotice (r : List (Nat × DrawValue) × List DrawValue × Bool) : Bool :=
  r.2.1.isEmpty && r.2.2

/-- `main()` of draw_bingo_values.py: resolve the pool, flatten, shuffle
(`shuffleFn`, assumed a permutation where a theorem needs it), then run the
interactive loop. -/
def drawMain (shuffleFn : List DrawValue → List DrawValue) (inputs : Nat → String)
    (valueFile : Option (List String)) (cardSize : String) :
    Except LoadErr (List (Nat × DrawValue) × List DrawValue × Bool) :=
  match (match valueFile with
         | none => Except.ok (builtinDrawPool cardSize)
         | some lines => loadValueLines lines) with
  | .error e => .error e
  | .ok d => .ok (drawLoop inputs (shuffleFn (flattenDraw d)))

/-- A store of Python list objects addressed by allocation index. It makes
the deep copy of line 106 distinguishable from aliasing, so that
non-mutation of the shared `valuesDict` is a real statement. -/
structure Heap where
  cells : List (List String)

def Heap.size (h : Heap) : Nat := h.cells.length

def Heap.read (h : Heap) (r : Nat) : List String := (getElem? h.cells r).getD []

def Heap.write (h : Heap) (r : Nat) (l : List String) : Heap := ⟨h.cells.set r l⟩

def Heap.alloc (h : Heap) (l : List String) : Heap × Nat :=
  (⟨h.cells ++ [l]⟩, h.cells.length)

/-- A dict whose values are references to list objects in the heap. -/
abbrev DictRef := List (Option String × Nat)

/-- The dict value a reference dict denotes in a heap. -/
def readDict (h : Heap) (d : DictRef) : Pool := d.map (fun kv => (kv.1, h.read kv.2))

def lookupRef : DictRef → Option String → Option Nat
  | [], _ => none
  | (k1, r) :: rest, k => if k1 = k then some r else lookupRef rest k

/-- `copy.deepcopy(valuesDict)` (line 106): fresh list objects holding equal
contents. -/
def deepcopyDict : Heap → DictRef → Heap × DictRef
  | h, [] => (h, [])
  | h, (k, r) :: rest =>
    let a := h.alloc (h.read r)
    let b := deepcopyDict a.1 rest
    (b.1, (k, a.2) :: b.2)

/-- Lines 121-124 in the heap model. -/
def shuffleColsH (shuf : Nat → List String → List String) : Nat → Heap → DictRef → Heap
  | _, h, [] => h
  | i, h, (_, r) :: rest => shuffleColsH shuf (i+1) (h.write r (shuf i (h.read r))) rest

/-- Lines 106-124 in the heap model: `orig` is the shared `valuesDict`, `cp`
its deep copy. The scatter merge reads `orig` and writes one freshly
allocated list (the new `shuffleDict[None]`). -/
def prepareH (shuf : Nat → List String → List String) (scatter : Bool)
    (h : Heap) (orig cp : DictRef) : Heap × DictRef :=
  if scatter then
    match lookupRef cp none with
    | some r => (h.write r (shuf 0 (h.read r)), cp)
    | none =>
      let a := h.alloc (shuf 0 (flatPool (readDict h orig)))
      (a.1, cp ++ [(none, a.2)])
  else (shuffleColsH shuf 0 h cp, cp)

/-- `shuffleDict[row].pop()` against the heap. -/
def popH (h : Heap) (r : Nat) : Except Err (String × Heap) :=
  match (h.read r).getLast? with
  | none => .error .popEmpty
  | some v => .ok (v, h.write r (h.read r).dropLast)

def popNH : Nat → Heap → DictRef → Option String → (Except Err (List String)) × Heap
  | 0, h, _, _ => (.ok [], h)
  | n+1, h, d, k =>
    match lookupRef d k with
    | none => (.error .keyMissing, h)
    | some r =>
      match popH h r with
      | .error e => (.error e, h)
      | .ok (v, h1) =>
        let pr := popNH n h1 d k
        (match pr.1 with
         | .error e => .error e
         | .ok vs => .ok (v :: vs), pr.2)

def populateH (labels : Option (List String)) (nRows : Nat) :
    List (Option String) → Nat → Heap → DictRef →
      (Except Err (List (List String))) × Heap
  | [], _, h, _ => (.ok [], h)
  | k :: ks, iCol, h, d =>
    match labelCell labels iCol with
    | .error e => (.error e, h)
    | .ok head =>
      let pr := popNH nRows h d k
      match pr.1 with
      | .error e => (.error e, pr.2)
      | .ok vs =>
        let pr2 := populateH labels nRows ks (iCol+1) pr.2 d
        (match pr2.1 with
         | .error e => .error e
         | .ok cols => .ok ((head ++ vs) :: cols), pr2.2)

/-- The per-card loop body (lines 100-169) in the heap model. -/
def makeCardH (rng : Rng) (p : CardParams) (h : Heap) (valuesDict : DictRef) :
    (Except Err (List (List String))) × Heap :=
  let a := deepcopyDict h valuesDict
  let b := prepareH rng.shuf p.scatter a.1 valuesDict a.2
  let ks := colIterKeys p.scatter p.nCols (valuesDict.map (fun kv => kv.1))
  let pr := populateH p.columnLabelList p.nRows ks 0 b.1 b.2
  (match pr.1 with
   | .error e => .error e
   | .ok cols =>
     let nRowsPrinted := if p.columnLabelList.isSome then p.nRows + 1 else p.nRows
     match transposeGrid cols nRowsPrinted with
     | .error e => .error e
     | .ok grid =>
       if p.useFreeSpace then setCell grid (freeRowIdx p rng) (freeColIdx p rng) star
       else .ok grid, pr.2)

/-- The sequence of cards a make_cards call generates (lines 93-169), in the
heap model; the page structure never touches the pools. -/
def makeCardsH (rng : Nat → Rng) (p : CardParams) :
    Nat → Nat → Heap → DictRef → (Except Err (List (List (List String)))) × Heap
  | 0, _, h, _ => (.ok [], h)
  | n+1, idx, h, d =>
    let pr := makeCardH (rng idx) p h d
    match pr.1 with
    | .error e => (.error e, pr.2)
    | .ok g =>
      let pr2 := makeCardsH rng p n (idx+1) pr.2 d
      (match pr2.1 with
       | .error e => .error e
       | .ok gs => .ok (g :: gs), pr2.2)

/-- The text of cell (i, j) of a finished grid. -/
def getCell (g : List (List String)) (i j : Nat) : Option String :=
  (getElem? g i).bind (fun r => getElem? r j)

/-- The list scatter mode pops every value from: the existing `None` entry
if present (line 111), else the concatenation of all columns (lines
116-118). -/
def mergedPool (d : Pool) : List String :=
  match lookupCol d none with
  | some vs => vs
  | none => flatPool d

/-- `h1` extends `h0`: same contents at every already-allocated address. -/
def HExt (h0 h1 : Heap) : Prop :=
  h0.size ≤ h1.size ∧ ∀ r, r < h0.size → h1.read r = h0.read r

/-- Total number of card grids in a make_cards result. -/
def docGrids (r : Except Err (List (List (List (List String))))) : Nat :=
  match r with
  | .error _ => 0
  | .ok pages => (pages.map List.length).sum

/-! Concrete fixtures used by witnesses and counterexamples: the identity
permutation is one possible outcome of `random.shuffle`, and 0 one possible
outcome of `randint`. -/

def rngId : Rng := ⟨fun _ l => l, 0, 0⟩

def rngsId : Nat → Rng := fun _ => rngId

def pool3 : Pool :=
  [(some "B", ["1", "2", "3"]), (some "I", ["4", "5", "6"]), (some "N", ["7", "8", "9"])]

def params3 : CardParams := ⟨3, 3, false, true, some ["B", "I", "N"]⟩

def grid3 : List (List String) := (makeCard rngId params3 pool3).toOption.getD []

def poolU : Pool := [(none, ["1", "2", "3"])]

def paramsU : CardParams := ⟨3, 3, false, false, none⟩

def gridU : List (List String) := (makeCard rngId paramsU poolU).toOption.getD []

def doc1 : List (List (List (List String))) :=
  (makeCards rngsId pool3 1 "3x3" none 2 false false).toOption.getD []

def drawList3 : List DrawValue := [⟨"B", "1"⟩, ⟨"B", "2"⟩, ⟨"N", "3"⟩]

def inputsNone : Nat → String := fun _ => ""

def inputsQ1 : Nat → String := fun i => if i = 1 then "Q" else ""

def argsShort : GenArgs :=
  ⟨2, "3x3", 4, "B,I,N", false, false, false, some ["B::1\n", "I::2\n"]⟩

def argsEmptyFile : GenArgs :=
  ⟨2, "5x5", 4, "B,I,N,G,O", false, false, false, some []⟩

def heap3 : Heap := ⟨[["1", "2", "3"], ["4", "5", "6"], ["7", "8", "9"]]⟩

def dict3 : DictRef := [(some "B", 0), (some "I", 1), (some "N", 2)]

def pool2 : Pool := (loadValueLines ["B::1\n", "I::2\n"]).toOption.getD []

/-! Lemmas about the page loops. -/

theorem makePage_ok_length {rng : Nat → Rng} {p : CardParams} {d : Pool} :
    ∀ {c idx : Nat} {pg : List (List (List String))},
      makePage rng p d idx c = .ok pg → pg.length = c := by
  intro c
  induction c with
  | zero =>
    intro idx pg h
    simp only [makePage] at h
    cases h
    rfl
  | succ n ih =>
    intro idx pg h
    simp only [makePage] at h
    cases hc : makeCard (rng idx) p d with
    | error e => rw [hc] at h; cases h
    | ok g =>
      rw [hc] at h
      cases hp : makePage rng p d (idx + 1) n with
      | error e => rw [hp] at h; cases h
      | ok gs =>
        rw [hp] at h
        cases h
        simp [ih hp]

theorem makePages_ok {rng : Nat → Rng} {p : CardParams} {d : Pool} {per : Nat} :
    ∀ {n idx : Nat} {doc : List (List (List (List String)))},
      makePages rng p d per n idx = .ok doc →
      doc.length = n ∧ ∀ pg ∈ doc, pg.length = per := by
  intro n
  induction n with
  | zero =>
    intro idx doc h
    simp only [makePages] at h
    cases h
    simp
  | succ m ih =>
    intro idx doc h
    simp only [makePages] at h
    cases hp : makePage rng p d idx per with
    | error e => rw [hp] at h; cases h
    | ok pg =>
      rw [hp] at h
      cases hr : makePages rng p d per m (idx + per) with
      | error e => rw [hr] at h; cases h
      | ok rest =>
        rw [hr] at h
        cases h
        obtain ⟨hlen, hall⟩ := ih hr
        refine ⟨by simp [hlen], ?_⟩
        intro pg2 hpg
        rcases List.mem_cons.mp hpg with h1 | h2
        · rw [h1]; exact makePage_ok_length hp
        · exact hall pg2 h2

/-- C1 (amended): for cardsPerPage ∈ {1,2,4}, make_cards writes exactly
ceil(nCards / cardsPerPage) pages, each page carrying exactly cardsPerPage
rendered card grids (the `for ax in axArr.flat` loop fills every subplot of
every page), laid out by the fixed lookup 1→1×1, 2→2×1, 4→2×2; so the
document holds ceil(nCards/cardsPerPage)·cardsPerPage grids, which is
nCards exactly when cardsPerPage divides nCards. -/
theorem makeCards_pagination (rng : Nat → Rng) (d : Pool) (nCards : Nat)
    (cardSize : String) (labels : Option (List String)) (cpp : Nat)
    (sc fs : Bool) (doc : List (List (List (List String))))
    (hcpp : cpp = 1 ∨ cpp = 2 ∨ cpp = 4)
    (hok : makeCards rng d nCards cardSize labels cpp sc fs = .ok doc) :
    doc.length = ceilDiv nCards cpp ∧ (∀ pg ∈ doc, pg.length = cpp) ∧
    pageLayout 1 = some (1, 1) ∧ pageLayout 2 = some (2, 1) ∧
    pageLayout 4 = some (2, 2) := by
  rcases hcpp with h1 | h2 | h4
  · subst h1
    simp only [makeCards, pageLayout] at hok
    norm_num at hok
    obtain ⟨ha, hb⟩ := makePages_ok hok
    exact ⟨ha, hb, rfl, rfl, rfl⟩
  · subst h2
    simp only [makeCards, pageLayout] at hok
    norm_num at hok
    obtain ⟨ha, hb⟩ := makePages_ok hok
    exact ⟨ha, by simpa using hb, rfl, rfl, rfl⟩
  · subst h4
    simp only [makeCards, pageLayout] at hok
    norm_num at hok
    obtain ⟨ha, hb⟩ := makePages_ok hok
    exact ⟨ha, by simpa using hb, rfl, rfl, rfl⟩

/-- C1 witness: one card requested at two cards per page gives one page of
two grids. -/
theorem makeCards_pagination_witness :
    doc1.length = ceilDiv 1 2 ∧ (∀ pg ∈ doc1, pg.length = 2) ∧
    pageLayout 1 = some (1, 1) ∧ pageLayout 2 = some (2, 1) ∧
    pageLayout 4 = some (2, 2) :=
  makeCards_pagination rngsId pool3 1 "3x3" none 2 false false doc1
    (Or.inr (Or.inl rfl)) rfl

/-- C1 counterexample: with nCards = 1 and cardsPerPage = 2 the produced
document contains 2 rendered card grids, not exactly nCards = 1 as the
claim states. -/
theorem makeCards_card_count_cex :
    docGrids (makeCards rngsId pool3 1 "3x3" none 2 false false) = 2 ∧ 2 ≠ 1 :=
  ⟨rfl, by decide⟩

/-- C5 (amended): the built-in pool has 15 values per column from the fixed
ranges B=1-15, I=16-30, N=31-45, G=46-60, O=61-75, with columns B,I,N for
3x3, B,I,N,G for 4x4 and B,I,N,G,O for 5x5, hence 15·S values in total for
side length S (not S²); no value appears in two different columns; and the
card script's trimming of its constant 5-column pool to the first nCols
keys yields exactly the same pools. -/
theorem builtin_pool_shape :
    builtinDrawPool "3x3" =
      [(some "B", numStrs 1 15), (some "I", numStrs 16 15), (some "N", numStrs 31 15)] ∧
    builtinDrawPool "4x4" =
      [(some "B", numStrs 1 15), (some "I", numStrs 16 15), (some "N", numStrs 31 15),
       (some "G", numStrs 46 15)] ∧
    builtinDrawPool "5x5" = standardPool ∧
    (flatPool (builtinDrawPool "3x3")).length = 15 * 3 ∧
    (flatPool (builtinDrawPool "4x4")).length = 15 * 4 ∧
    (flatPool (builtinDrawPool "5x5")).length = 15 * 5 ∧
    (flatPool (builtinDrawPool "3x3")).Nodup ∧
    (flatPool (builtinDrawPool "4x4")).Nodup ∧
    (flatPool (builtinDrawPool "5x5")).Nodup ∧
    reconcileDict standardPool (cardCols "3x3") = .ok (builtinDrawPool "3x3") ∧
    reconcileDict standardPool (cardCols "4x4") = .ok (builtinDrawPool "4x4") ∧
    reconcileDict standardPool (cardCols "5x5") = .ok (builtinDrawPool "5x5") := by
  refine ⟨rfl, rfl, rfl, rfl, rfl, rfl, ?_, ?_, ?_, rfl, rfl, rfl⟩ <;> decide

/-- C5 counterexample: the 3x3 built-in pool holds 45 candidate values in
total, not 3² = 9 as the claim states. -/
theorem builtin_pool_total_cex :
    (flatPool (builtinDrawPool "3x3")).length = 45 ∧ 45 ≠ 3 * 3 :=
  ⟨rfl, by decide⟩

/-- C4: loading a labeled value file for card generation, fewer keys than
grid columns makes main fail with the config error right after the
reconciliation check — for every rng and card count, so before any layout
or rendering — and produce no document; more keys than columns are trimmed
to the first nCols keys in insertion order. -/
theorem label_count_check (rng : Nat → Rng) (a : GenArgs) (lines : List String)
    (d : Pool)
    (hfile : a.valueFile = some lines)
    (hload : loadValueLines lines = .ok d)
    (hlab : hasKey d none = false) :
    (d.length < cardCols a.cardSize → cardGenMain rng a = .error .configError) ∧
    (cardCols a.cardSize < d.length →
      reconcileDict d (cardCols a.cardSize) = .ok (d.take (cardCols a.cardSize))) := by
  constructor
  · intro hlt
    have hrec : reconcileDict d (cardCols a.cardSize) = .error .configError := by
      simp only [reconcileDict, hlab, Bool.false_eq_true, if_false]
      rw [if_neg (by omega), if_pos hlt]
    simp only [cardGenMain, hfile, hload, hrec]
  · intro hgt
    simp only [reconcileDict, hlab, Bool.false_eq_true, if_false]
    rw [if_pos hgt]

/-- C4 witness: a 3x3 request with a two-label file ends in the config
error and no document. -/
theorem label_count_check_witness :
    cardGenMain rngsId argsShort = .error .configError :=
  (label_count_check rngsId argsShort ["B::1\n", "I::2\n"] pool2 rfl rfl rfl).1
    (by decide)

/-- C6: an empty value file makes both scripts fail with the input error —
for every rng, shuffle and operator input, so before any randomized or
interactive work — and the card script produces no document. -/
theorem empty_value_file_error (rng : Nat → Rng) (a : GenArgs)
    (shuffleFn : List DrawValue → List DrawValue) (inputs : Nat → String)
    (cardSize : String) (hfile : a.valueFile = some []) :
    cardGenMain rng a = .error (.inputError .noValues) ∧
    drawMain shuffleFn inputs (some []) cardSize = .error .noValues := by
  constructor
  · simp only [cardGenMain, hfile, loadValueLines]
  · simp only [drawMain, loadValueLines]

/-- C6 witness: both mains at a concrete empty file. -/
theorem empty_value_file_error_witness :
    cardGenMain rngsId argsEmptyFile = .error (.inputError .noValues) ∧
    drawMain id inputsNone (some []) "5x5" = .error .noValues :=
  empty_value_file_error rngsId argsEmptyFile id inputsNone "5x5" rfl

/-! Lemmas about the draw loop. A pop from the end of the list is the head
of the reversed list, so the loop is analysed by induction from the right. -/

theorem drawLoopF_noq (inputs : Nat → String) (hq : ∀ i, pyLower (inputs i) ≠ "q") :
    ∀ (l : List DrawValue) (count step : Nat),
      drawLoopF inputs l.length l count step =
        ((List.range' (count + 1) l.length).zip l.reverse, [], true) := by
  intro l
  induction l using List.reverseRecOn with
  | nil => intro count step; rfl
  | append_singleton xs x ih =>
    intro count step
    have hlen : (xs ++ [x]).length = xs.length + 1 := by simp
    rw [hlen]
    simp only [drawLoopF, List.getLast?_concat, List.dropLast_concat]
    rw [if_neg (hq step), ih (count + 1) (step + 1)]
    simp [List.reverse_concat, List.range'_succ]

theorem drawLoopF_q (inputs : Nat → String) :
    ∀ (l : List DrawValue) (count step m : Nat),
      (∀ i, i < m → pyLower (inputs (step + i)) ≠ "q") →
      pyLower (inputs (step + m)) = "q" → m + 1 ≤ l.length →
      drawLoopF inputs l.length l count step =
        ((List.range' (count + 1) (m + 1)).zip (l.reverse.take (m + 1)),
          l.take (l.length - (m + 1)), false) := by
  intro l
  induction l using List.reverseRecOn with
  | nil => intro count step m hno hq hm; simp at hm
  | append_singleton xs x ih =>
    intro count step m hno hq hm
    have hlen : (xs ++ [x]).length = xs.length + 1 := by simp
    rw [hlen]
    cases m with
    | zero =>
      simp only [drawLoopF, List.getLast?_concat, List.dropLast_concat]
      rw [if_pos (by simpa using hq)]
      have htk : (xs ++ [x]).take (xs.length + 1 - 1) = xs := by
        simp [List.take_left]
      simp [List.reverse_concat, List.range'_succ, htk]
    | succ m2 =>
      simp only [drawLoopF, List.getLast?_concat, List.dropLast_concat]
      rw [if_neg (by simpa using hno 0 (by omega))]
      have hq2 : pyLower (inputs (step + 1 + m2)) = "q" := by
        have harith : step + 1 + m2 = step + (m2 + 1) := by omega
        rw [harith]; exact hq
      have hno2 : ∀ i, i < m2 → pyLower (inputs (step + 1 + i)) ≠ "q" := by
        intro i hi
        have harith : step + 1 + i = step + (i + 1) := by omega
        rw [harith]; exact hno (i + 1) (by omega)
      rw [ih (count + 1) (step + 1) m2 hno2 hq2 (by simp at hm; omega)]
      have hm2 : m2 + 1 ≤ xs.length := by simp at hm; omega
      have htk : (xs ++ [x]).take (xs.length + 1 - (m2 + 1 + 1)) =
          xs.take (xs.length - (m2 + 1)) := by
        rw [List.take_append_of_le_length (by omega)]
        congr 1
        omega
      simp [List.reverse_concat, List.range'_succ, htk]

/-- C7: with a loaded pool of N values, when no operator input lowercases to
q the loop emits exactly N entries — counters strictly increasing from 1,
each list element exactly once (so no value twice when the pool has no
duplicates) — and then announces exhaustion with nothing retained; the
first input lowercasing to q (the m-th, 0-based, reply) stops emission
immediately after m+1 draws, the remaining values retained but not shown. -/
theorem draw_sequencer_spec (inputs : Nat → String) (l : List DrawValue) :
    ((∀ i, pyLower (inputs i) ≠ "q") →
      (drawLoop inputs l).1.length = l.length ∧
      (drawLoop inputs l).1.map Prod.fst = List.range' 1 l.length ∧
      (drawLoop inputs l).1.map Prod.snd = l.reverse ∧
      (l.Nodup → ((drawLoop inputs l).1.map Prod.snd).Nodup) ∧
      (drawLoop inputs l).2.1 = [] ∧
      exhaustedNotice (drawLoop inputs l) = true) ∧
    (∀ m, (∀ i, i < m → pyLower (inputs i) ≠ "q") → pyLower (inputs m) = "q" →
      m + 1 ≤ l.length →
      (drawLoop inputs l).1.length = m + 1 ∧
      (drawLoop inputs l).2.1 = l.take (l.length - (m + 1)) ∧
      (drawLoop inputs l).2.2 = false) := by
  constructor
  · intro hq
    have h := drawLoopF_noq inputs hq l 0 0
    rw [drawLoop, h]
    have hlr : (List.range' 1 l.length).length = l.length := by simp
    have hfst : (List.map Prod.fst ((List.range' 1 l.length).zip l.reverse)) =
        List.range' 1 l.length :=
      List.map_fst_zip _ _ (by simp [hlr])
    have hsnd : (List.map Prod.snd ((List.range' 1 l.length).zip l.reverse)) =
        l.reverse :=
      List.map_snd_zip _ _ (by simp [hlr])
    refine ⟨by simp [List.length_zip, hlr], hfst, hsnd, ?_, rfl, rfl⟩
    intro hnd
    rw [hsnd]
    exact List.nodup_reverse.mpr hnd
  · intro m hno hq hm
    have h := drawLoopF_q inputs l 0 0 m (by simpa using hno) (by simpa using hq) hm
    rw [drawLoop, h]
    refine ⟨?_, rfl, rfl⟩
    simp [List.length_zip, List.length_take, List.length_range']
    omega

/-- C7 witness: three distinct values; a never-quitting run emits all three
in counter order and announces exhaustion, while quitting at the second
prompt emits exactly two and stops. -/
theorem draw_sequencer_spec_witness :
    ((drawLoop inputsNone drawList3).1.map Prod.fst =
        List.range' 1 drawList3.length ∧
      ((drawLoop inputsNone drawList3).1.map Prod.snd).Nodup ∧
      exhaustedNotice (drawLoop inputsNone drawList3) = true) ∧
    ((drawLoop inputsQ1 drawList3).1.length = 2 ∧
      (drawLoop inputsQ1 drawList3).2.2 = false) := by
  have h1 := (draw_sequencer_spec inputsNone drawList3).1
    (by intro i; show pyLower "" ≠ "q"; decide)
  have h2 := (draw_sequencer_spec inputsQ1 drawList3).2 1
    (by
      intro i hi
      have hz : i = 0 := by omega
      subst hz
      decide)
    (by decide) (by decide)
  exact ⟨⟨h1.2.1, h1.2.2.2.1 (by decide), h1.2.2.2.2.2⟩, h2.1, h2.2.2⟩

/-! Lemmas about the heap model: every write a card performs targets an
address allocated at or after its deep copy, so lists that existed before
the call never change. -/

theorem hExt_refl (h : Heap) : HExt h h := ⟨le_refl _, fun _ _ => rfl⟩

theorem hExt_trans {a b c : Heap} (h1 : HExt a b) (h2 : HExt b c) : HExt a c :=
  ⟨le_trans h1.1 h2.1, fun r hr => (h2.2 r (lt_of_lt_of_le hr h1.1)).trans (h1.2 r hr)⟩

theorem hExt_alloc (h : Heap) (l : List String) : HExt h (h.alloc l).1 := by
  constructor
  · simp [Heap.alloc, Heap.size]
  · intro r hr
    simp only [Heap.size] at hr
    simp [Heap.alloc, Heap.read, List.getElem?_append, hr]

theorem hExt_write {h0 h : Heap} {r : Nat} (hx : HExt h0 h) (hr : h0.size ≤ r)
    (l : List String) : HExt h0 (h.write r l) := by
  constructor
  · calc h0.size ≤ h.size := hx.1
      _ = (h.write r l).size := by simp [Heap.write, Heap.size]
  · intro r2 hr2
    have heq : (h.write r l).read r2 = h.read r2 := by
      simp only [Heap.write, Heap.read]
      rw [List.getElem?_set_ne (by omega)]
    rw [heq]
    exact hx.2 r2 hr2

theorem deepcopyDict_spec : ∀ (d : DictRef) (h : Heap),
    HExt h (deepcopyDict h d).1 ∧ ∀ kv ∈ (deepcopyDict h d).2, h.size ≤ kv.2 := by
  intro d
  induction d with
  | nil => intro h; exact ⟨hExt_refl h, by simp [deepcopyDict]⟩
  | cons kv rest ih =>
    intro h
    obtain ⟨k, r⟩ := kv
    obtain ⟨ihx, ihf⟩ := ih (h.alloc (h.read r)).1
    simp only [deepcopyDict]
    constructor
    · exact hExt_trans (hExt_alloc h _) ihx
    · intro kv2 hkv
      simp only [List.mem_cons] at hkv
      rcases hkv with h1 | h2
      · rw [h1]
        simp [Heap.alloc, Heap.size]
      · calc h.size ≤ (h.alloc (h.read r)).1.size := (hExt_alloc h _).1
          _ ≤ kv2.2 := ihf kv2 h2

theorem shuffleColsH_ext {shuf : Nat → List String → List String} {h0 : Heap} :
    ∀ (d : DictRef) (i : Nat) (h : Heap), HExt h0 h → (∀ kv ∈ d, h0.size ≤ kv.2) →
      HExt h0 (shuffleColsH shuf i h d) := by
  intro d
  induction d with
  | nil => intro i h hx _; exact hx
  | cons kv rest ih =>
    intro i h hx hf
    obtain ⟨k, r⟩ := kv
    simp only [shuffleColsH]
    exact ih (i+1) _ (hExt_write hx (hf (k, r) (by simp)) _)
      (fun kv2 h2 => hf kv2 (by simp [h2]))

theorem lookupRef_mem {k : Option String} {r : Nat} :
    ∀ {d : DictRef}, lookupRef d k = some r → ∃ k1, (k1, r) ∈ d := by
  intro d
  induction d with
  | nil => intro h; cases h
  | cons kv rest ih =>
    intro h
    obtain ⟨k1, r1⟩ := kv
    simp only [lookupRef] at h
    by_cases hk : k1 = k
    · rw [if_pos hk] at h
      cases h
      exact ⟨k1, by simp⟩
    · rw [if_neg hk] at h
      obtain ⟨k2, hm⟩ := ih h
      exact ⟨k2, by simp [hm]⟩

theorem prepareH_spec (shuf : Nat → List String → List String) (scatter : Bool)
    (h0 h : Heap) (orig cp : DictRef)
    (hx : HExt h0 h) (hcp : ∀ kv ∈ cp, h0.size ≤ kv.2) :
    HExt h0 (prepareH shuf scatter h orig cp).1 ∧
    ∀ kv ∈ (prepareH shuf scatter h orig cp).2, h0.size ≤ kv.2 := by
  cases scatter with
  | false =>
    simp only [prepareH, Bool.false_eq_true, if_false]
    exact ⟨shuffleColsH_ext cp 0 h hx hcp, hcp⟩
  | true =>
    simp only [prepareH, if_true]
    cases hlk : lookupRef cp none with
    | some r =>
      obtain ⟨k1, hm⟩ := lookupRef_mem hlk
      exact ⟨hExt_write hx (hcp (k1, r) hm) _, hcp⟩
    | none =>
      constructor
      · exact hExt_trans hx (hExt_alloc h _)
      · intro kv hkv
        simp only [List.mem_append, List.mem_cons] at hkv
        rcases hkv with h1 | h2
        · exact hcp kv h1
        · rcases h2 with h2 | h2
          · rw [h2]
            simpa [Heap.alloc, Heap.size] using hx.1
          · simp at h2

theorem popNH_ext (h0 : Heap) (k : Option String) :
    ∀ (n : Nat) (h : Heap) (d : DictRef), HExt h0 h → (∀ kv ∈ d, h0.size ≤ kv.2) →
      HExt h0 (popNH n h d k).2 := by
  intro n
  induction n with
  | zero => intro h d hx _; exact hx
  | succ m ih =>
    intro h d hx hf
    simp only [popNH]
    cases hlk : lookupRef d k with
    | none => exact hx
    | some r =>
      cases hgl : (h.read r).getLast? with
      | none => simp only [popH, hgl]; exact hx
      | some v =>
        have hr : h0.size ≤ r := by
          obtain ⟨k1, hm⟩ := lookupRef_mem hlk
          exact hf (k1, r) hm
        have hx2 : HExt h0 (h.write r (h.read r).dropLast) := hExt_write hx hr _
        simp only [popH, hgl]
        exact ih (h.write r (h.read r).dropLast) d hx2 hf

theorem populateH_ext (labels : Option (List String)) (R : Nat) (h0 : Heap) :
    ∀ (ks : List (Option String)) (i0 : Nat) (h : Heap) (d : DictRef),
      HExt h0 h → (∀ kv ∈ d, h0.size ≤ kv.2) →
      HExt h0 (populateH labels R ks i0 h d).2 := by
  intro ks
  induction ks with
  | nil => intro i0 h d hx _; exact hx
  | cons k ks ih =>
    intro i0 h d hx hf
    simp only [populateH]
    cases hlc : labelCell labels i0 with
    | error e => exact hx
    | ok head =>
      have hx1 : HExt h0 (popNH R h d k).2 := popNH_ext h0 k R h d hx hf
      cases hpn : (popNH R h d k).1 with
      | error e => exact hx1
      | ok vs => exact ih (i0+1) (popNH R h d k).2 d hx1 hf

theorem makeCardH_ext (rng : Rng) (p : CardParams) (h : Heap) (d : DictRef) :
    HExt h (makeCardH rng p h d).2 := by
  obtain ⟨hx1, hf1⟩ := deepcopyDict_spec d h
  obtain ⟨hx2, hf2⟩ :=
    prepareH_spec rng.shuf p.scatter h (deepcopyDict h d).1 d (deepcopyDict h d).2 hx1 hf1
  simp only [makeCardH]
  exact populateH_ext p.columnLabelList p.nRows h
    (colIterKeys p.scatter p.nCols (d.map (fun kv => kv.1))) 0
    (prepareH rng.shuf p.scatter (deepcopyDict h d).1 d (deepcopyDict h d).2).1
    (prepareH rng.shuf p.scatter (deepcopyDict h d).1 d (deepcopyDict h d).2).2
    hx2 hf2

theorem makeCardsH_ext (rng : Nat → Rng) (p : CardParams) :
    ∀ (n idx : Nat) (h : Heap) (d : DictRef), HExt h (makeCardsH rng p n idx h d).2 := by
  intro n
  induction n with
  | zero => intro idx h d; exact hExt_refl h
  | succ m ih =>
    intro idx h d
    simp only [makeCardsH]
    have hx1 : HExt h (makeCardH (rng idx) p h d).2 := makeCardH_ext (rng idx) p h d
    cases hc : (makeCardH (rng idx) p h d).1 with
    | error e => exact hx1
    | ok g =>
      exact hExt_trans hx1 (ih (idx+1) (makeCardH (rng idx) p h d).2 d)

/-- C8: make_cards never mutates the pool mapping passed to it: in the heap
model, after generating any number of cards from a dict whose list objects
live in the heap, reading the dict back yields exactly the value it had
before the call (same keys, same lists, same element order), because every
card works on its own deep copy. -/
theorem make_cards_no_mutation (rng : Nat → Rng) (p : CardParams) (n idx : Nat)
    (h : Heap) (d : DictRef)
    (hvalid : ∀ kv ∈ d, kv.2 < h.size) :
    readDict (makeCardsH rng p n idx h d).2 d = readDict h d := by
  have hx := makeCardsH_ext rng p n idx h d
  apply List.map_congr_left
  intro kv hkv
  rw [hx.2 kv.2 (hvalid kv hkv)]

/-- C8 witness: two cards generated from a three-column pool held in a
concrete heap leave the original dict value untouched. -/
theorem make_cards_no_mutation_witness :
    readDict (makeCardsH rngsId params3 2 0 heap3 dict3).2 dict3 = readDict heap3 dict3 :=
  make_cards_no_mutation rngsId params3 2 0 heap3 dict3 (by decide)

/-! Lemmas about the pool dict and the popping loops. -/

theorem flatPool_cons (kv : Option String × List String) (rest : Pool) :
    flatPool (kv :: rest) = kv.2 ++ flatPool rest := by
  simp [flatPool]

theorem flatPool_append (d1 d2 : Pool) :
    flatPool (d1 ++ d2) = flatPool d1 ++ flatPool d2 := by
  simp [flatPool]

theorem lookupCol_none_iff : ∀ {d : Pool} {k : Option String},
    lookupCol d k = none ↔ ∀ kv ∈ d, kv.1 ≠ k := by
  intro d
  induction d with
  | nil => intro k; simp [lookupCol]
  | cons kv rest ih =>
    intro k
    obtain ⟨k1, vs⟩ := kv
    by_cases hk : k1 = k
    · simp [lookupCol, hk]
    · simp [lookupCol, hk, ih]

theorem lookupCol_append_left : ∀ {d0 : Pool} (d1 : Pool) {k : Option String},
    (∀ kv ∈ d0, kv.1 ≠ k) → lookupCol (d0 ++ d1) k = lookupCol d1 k := by
  intro d0
  induction d0 with
  | nil => intro d1 k _; rfl
  | cons kv rest ih =>
    intro d1 k h0
    obtain ⟨k1, vs⟩ := kv
    have hne : k1 ≠ k := h0 (k1, vs) (by simp)
    simp only [List.cons_append, lookupCol, if_neg hne]
    exact ih d1 (fun kv2 h2 => h0 kv2 (by simp [h2]))

theorem lookupCol_mem : ∀ {d : Pool} {k : Option String} {vs : List String},
    lookupCol d k = some vs → (k, vs) ∈ d := by
  intro d
  induction d with
  | nil => intro k vs h; cases h
  | cons kv rest ih =>
    intro k vs h
    obtain ⟨k1, vs1⟩ := kv
    simp only [lookupCol] at h
    by_cases hk : k1 = k
    · rw [if_pos hk] at h
      cases h
      rw [← hk]
      exact List.mem_cons_self _ _
    · rw [if_neg hk] at h
      exact List.mem_cons_of_mem _ (ih h)

theorem mem_keys_lookup : ∀ {d : Pool} {k : Option String},
    k ∈ d.map (fun kv => kv.1) → ∃ vs, lookupCol d k = some vs := by
  intro d
  induction d with
  | nil => intro k h; simp at h
  | cons kv rest ih =>
    intro k h
    obtain ⟨k1, vs1⟩ := kv
    by_cases hk : k1 = k
    · exact ⟨vs1, by simp [lookupCol, hk]⟩
    · simp only [List.map_cons, List.mem_cons] at h
      rcases h with h | h
      · exact absurd h.symm hk
      · obtain ⟨vs, hvs⟩ := ih h
        exact ⟨vs, by simp [lookupCol, hk, hvs]⟩

theorem lookupCol_setCol_self : ∀ {d : Pool} {k : Option String} {vs : List String}
    (l : List String), lookupCol d k = some vs → lookupCol (setCol d k l) k = some l := by
  intro d
  induction d with
  | nil => intro k vs l h; cases h
  | cons kv rest ih =>
    intro k vs l h
    obtain ⟨k1, vs1⟩ := kv
    simp only [lookupCol] at h
    by_cases hk : k1 = k
    · simp [setCol, hk, lookupCol]
    · rw [if_neg hk] at h
      simp [setCol, hk, lookupCol, ih l h]

theorem setCol_flat_perm : ∀ {d : Pool} {k : Option String} {vs l : List String},
    lookupCol d k = some vs → l.Perm vs → (flatPool (setCol d k l)).Perm (flatPool d) := by
  intro d
  induction d with
  | nil => intro k vs l h; cases h
  | cons kv rest ih =>
    intro k vs l h hp
    obtain ⟨k1, vs1⟩ := kv
    simp only [lookupCol] at h
    by_cases hk : k1 = k
    · rw [if_pos hk] at h
      cases h
      simp only [setCol, if_pos hk, flatPool_cons]
      exact List.Perm.append_right _ hp
    · rw [if_neg hk] at h
      simp only [setCol, if_neg hk, flatPool_cons]
      exact List.Perm.append_left _ (ih h hp)

theorem popFrom_perm : ∀ {d : Pool} {k : Option String} {v : String} {d1 : Pool},
    popFrom d k = .ok (v, d1) → (flatPool d).Perm (v :: flatPool d1) := by
  intro d
  induction d with
  | nil => intro k v d1 h; cases h
  | cons kv rest ih =>
    intro k v d1 h
    obtain ⟨k1, vs⟩ := kv
    simp only [popFrom] at h
    by_cases hk : k1 = k
    · rw [if_pos hk] at h
      cases hgl : vs.getLast? with
      | none => rw [hgl] at h; cases h
      | some w =>
        rw [hgl] at h
        cases h
        rw [flatPool_cons, flatPool_cons]
        have hvs : vs.dropLast ++ [v] = vs := by
          obtain ⟨ys, hys⟩ := List.getLast?_eq_some_iff.mp hgl
          subst hys
          simp
        have heq : vs ++ flatPool rest = vs.dropLast ++ (v :: flatPool rest) := by
          conv_lhs => rw [← hvs]
          rw [List.append_assoc, List.singleton_append]
        rw [heq]
        exact List.perm_middle
    · rw [if_neg hk] at h
      cases hrec : popFrom rest k with
      | error e => rw [hrec] at h; cases h
      | ok pr =>
        obtain ⟨v2, d2⟩ := pr
        rw [hrec] at h
        cases h
        rw [flatPool_cons, flatPool_cons]
        exact (List.Perm.append_left _ (ih hrec)).trans List.perm_middle

theorem popFrom_lookup : ∀ {d : Pool} {k : Option String} {v : String} {d1 : Pool},
    popFrom d k = .ok (v, d1) →
    (∃ vs, lookupCol d k = some vs ∧ vs.getLast? = some v ∧
      lookupCol d1 k = some vs.dropLast) ∧
    ∀ k2, k2 ≠ k → lookupCol d1 k2 = lookupCol d k2 := by
  intro d
  induction d with
  | nil => intro k v d1 h; cases h
  | cons kv rest ih =>
    intro k v d1 h
    obtain ⟨k1, vs⟩ := kv
    simp only [popFrom] at h
    by_cases hk : k1 = k
    · rw [if_pos hk] at h
      cases hgl : vs.getLast? with
      | none => rw [hgl] at h; cases h
      | some w =>
        rw [hgl] at h
        cases h
        constructor
        · exact ⟨vs, by simp [lookupCol, hk], hgl, by simp [lookupCol, hk]⟩
        · intro k2 hk2
          have hne : ¬ (k1 = k2) := fun hh => hk2 (hh.symm.trans hk)
          simp [lookupCol, hne]
    · rw [if_neg hk] at h
      cases hrec : popFrom rest k with
      | error e => rw [hrec] at h; cases h
      | ok pr =>
        obtain ⟨v2, d2⟩ := pr
        rw [hrec] at h
        cases h
        obtain ⟨⟨vs0, hl0, hgl0, hl1⟩, hpres⟩ := ih hrec
        constructor
        · exact ⟨vs0, by simp [lookupCol, hk, hl0], hgl0, by simp [lookupCol, hk, hl1]⟩
        · intro k2 hk2
          by_cases hk12 : k1 = k2
          · simp [lookupCol, hk12]
          · simp [lookupCol, hk12, hpres k2 hk2]

theorem popFrom_isOk : ∀ {d : Pool} {k : Option String} {vs : List String},
    lookupCol d k = some vs → vs ≠ [] → ∃ v d1, popFrom d k = .ok (v, d1) := by
  intro d
  induction d with
  | nil => intro k vs h _; cases h
  | cons kv rest ih =>
    intro k vs h hne
    obtain ⟨k1, vs1⟩ := kv
    simp only [lookupCol] at h
    by_cases hk : k1 = k
    · rw [if_pos hk] at h
      cases h
      cases hgl : vs.getLast? with
      | none =>
        rw [List.getLast?_eq_none_iff] at hgl
        exact absurd hgl hne
      | some w =>
        exact ⟨w, (k1, vs.dropLast) :: rest, by simp only [popFrom, if_pos hk, hgl]⟩
    · rw [if_neg hk] at h
      obtain ⟨v, d1, hrec⟩ := ih h hne
      exact ⟨v, (k1, vs1) :: d1, by simp only [popFrom, if_neg hk, hrec]⟩

theorem popN_perm : ∀ {n : Nat} {d : Pool} {k : Option String} {vs : List String} {d1 : Pool},
    popN n d k = .ok (vs, d1) → (flatPool d).Perm (vs ++ flatPool d1) ∧ vs.length = n := by
  intro n
  induction n with
  | zero =>
    intro d k vs d1 h
    simp only [popN] at h
    cases h
    exact ⟨List.Perm.refl _, rfl⟩
  | succ m ih =>
    intro d k vs d1 h
    simp only [popN] at h
    cases hp : popFrom d k with
    | error e => simp only [hp] at h; cases h
    | ok pr =>
      obtain ⟨v, d2⟩ := pr
      simp only [hp] at h
      cases hq : popN m d2 k with
      | error e => simp only [hq] at h; cases h
      | ok pr2 =>
        obtain ⟨vs2, d3⟩ := pr2
        simp only [hq, Except.ok.injEq, Prod.mk.injEq] at h
        obtain ⟨h1, h2⟩ := h
        subst h1
        subst h2
        obtain ⟨hperm2, hlen2⟩ := ih hq
        exact ⟨(popFrom_perm hp).trans (List.Perm.cons _ hperm2), by simp [hlen2]⟩

theorem popN_lookup : ∀ {n : Nat} {d : Pool} {k : Option String} {vs : List String} {d1 : Pool},
    popN n d k = .ok (vs, d1) →
    (∀ k2, k2 ≠ k → lookupCol d1 k2 = lookupCol d k2) ∧
    (∀ l, lookupCol d k = some l →
      ∃ l1, lookupCol d1 k = some l1 ∧ l1.length + n = l.length) := by
  intro n
  induction n with
  | zero =>
    intro d k vs d1 h
    simp only [popN] at h
    cases h
    exact ⟨fun _ _ => rfl, fun l hl => ⟨l, hl, by simp⟩⟩
  | succ m ih =>
    intro d k vs d1 h
    simp only [popN] at h
    cases hp : popFrom d k with
    | error e => simp only [hp] at h; cases h
    | ok pr =>
      obtain ⟨v, d2⟩ := pr
      simp only [hp] at h
      cases hq : popN m d2 k with
      | error e => simp only [hq] at h; cases h
      | ok pr2 =>
        obtain ⟨vs2, d3⟩ := pr2
        simp only [hq, Except.ok.injEq, Prod.mk.injEq] at h
        obtain ⟨h1, h2⟩ := h
        subst h1
        subst h2
        obtain ⟨⟨vs0, hl0, hgl0, hl1⟩, hpres1⟩ := popFrom_lookup hp
        obtain ⟨hpres2, hlen2⟩ := ih hq
        constructor
        · intro k2 hk2
          rw [hpres2 k2 hk2, hpres1 k2 hk2]
        · intro l hl
          rw [hl] at hl0
          injection hl0 with hlv
          rw [← hlv] at hl1 hgl0
          obtain ⟨l1, hll1, hlen1⟩ := hlen2 _ hl1
          refine ⟨l1, hll1, ?_⟩
          have hnil : l ≠ [] := by
            intro hh
            rw [hh] at hgl0
            cases hgl0
          have := List.length_dropLast l
          have hpos : 0 < l.length := List.length_pos.mpr hnil
          omega

theorem popN_isOk : ∀ {n : Nat} {d : Pool} {k : Option String} {vs : List String},
    lookupCol d k = some vs → n ≤ vs.length → ∃ out, popN n d k = .ok out := by
  intro n
  induction n with
  | zero => intro d k vs _ _; exact ⟨([], d), rfl⟩
  | succ m ih =>
    intro d k vs hl hn
    have hne : vs ≠ [] := by
      intro hh
      rw [hh] at hn
      simp at hn
    obtain ⟨v, d1, hp⟩ := popFrom_isOk hl hne
    obtain ⟨⟨vs0, hl0, hgl0, hl1⟩, _⟩ := popFrom_lookup hp
    rw [hl] at hl0
    cases hl0
    have hm : m ≤ vs.dropLast.length := by
      have := List.length_dropLast vs
      omega
    obtain ⟨⟨vs2, d4⟩, hq⟩ := ih hl1 hm
    exact ⟨(v :: vs2, d4), by simp only [popN, hp, hq]⟩

theorem labelCell_ok_length {labels : Option (List String)} {i : Nat} {head : List String}
    (h : labelCell labels i = .ok head) : head.length = labelLen labels := by
  cases labels with
  | none =>
    simp only [labelCell] at h
    cases h
    rfl
  | some ls =>
    simp only [labelCell] at h
    cases hg : getElem? ls i with
    | none => rw [hg] at h; cases h
    | some l => rw [hg] at h; cases h; rfl

theorem populateAux_spec {labels : Option (List String)} {R : Nat} :
    ∀ {ks : List (Option String)} {i0 : Nat} {d : Pool} {cols : List (List String)}
      {d1 : Pool},
    populateAux labels R ks i0 d = .ok (cols, d1) →
    ∃ pops : List (List String),
      cols.length = ks.length ∧ pops.length = ks.length ∧
      (∀ (j : Nat) (c : List String), getElem? cols j = some c →
        ∃ pv, getElem? pops j = some pv ∧ c.length = labelLen labels + R ∧
          c.drop (labelLen labels) = pv) ∧
      (∀ pv ∈ pops, pv.length = R) ∧
      (flatPool d).Perm (pops.flatten ++ flatPool d1) := by
  intro ks
  induction ks with
  | nil =>
    intro i0 d cols d1 h
    simp only [populateAux] at h
    cases h
    refine ⟨[], rfl, rfl, ?_, by simp, by simp⟩
    intro j c hc
    simp at hc
  | cons k ks ih =>
    intro i0 d cols d1 h
    simp only [populateAux] at h
    cases hlc : labelCell labels i0 with
    | error e => simp only [hlc] at h; cases h
    | ok head =>
      simp only [hlc] at h
      cases hpn : popN R d k with
      | error e => simp only [hpn] at h; cases h
      | ok pr =>
        obtain ⟨vs, d2⟩ := pr
        simp only [hpn] at h
        cases hrec : populateAux labels R ks (i0+1) d2 with
        | error e => simp only [hrec] at h; cases h
        | ok pr2 =>
          obtain ⟨cols2, d3⟩ := pr2
          simp only [hrec, Except.ok.injEq, Prod.mk.injEq] at h
          obtain ⟨h1, h2⟩ := h
          subst h1
          subst h2
          obtain ⟨pops2, hc2, hp2, hidx2, hall2, hperm2⟩ := ih hrec
          obtain ⟨hpermN, hlenN⟩ := popN_perm hpn
          have hhead := labelCell_ok_length hlc
          refine ⟨vs :: pops2, by simp [hc2], by simp [hp2], ?_, ?_, ?_⟩
          · intro j c hc
            cases j with
            | zero =>
              rw [List.getElem?_cons_zero] at hc
              cases hc
              refine ⟨vs, List.getElem?_cons_zero, ?_, ?_⟩
              · simp [hhead, hlenN]
              · rw [← hhead]
                exact List.drop_left head vs
            | succ j2 =>
              rw [List.getElem?_cons_succ] at hc
              obtain ⟨pv, hpv, hcl, hcd⟩ := hidx2 j2 c hc
              exact ⟨pv, by simpa using hpv, hcl, hcd⟩
          · intro pv hpv
            rcases List.mem_cons.mp hpv with h1 | h2
            · rw [h1]; exact hlenN
            · exact hall2 pv h2
          · have h1 : (flatPool d).Perm (vs ++ (pops2.flatten ++ flatPool d3)) :=
              hpermN.trans (List.Perm.append_left _ hperm2)
            have heq : (vs :: pops2).flatten ++ flatPool d3 =
                vs ++ (pops2.flatten ++ flatPool d3) := by
              simp [List.flatten_cons, List.append_assoc]
            rw [heq]
            exact h1

theorem popFrom_append_left : ∀ {d0 : Pool} (d1 : Pool) {k : Option String},
    (∀ kv ∈ d0, kv.1 ≠ k) →
    popFrom (d0 ++ d1) k =
      match popFrom d1 k with
      | .error e => .error e
      | .ok (v, d2) => .ok (v, d0 ++ d2) := by
  intro d0
  induction d0 with
  | nil =>
    intro d1 k _
    simp only [List.nil_append]
    cases hp : popFrom d1 k with
    | error e => rfl
    | ok pr =>
      obtain ⟨v, d2⟩ := pr
      simp
  | cons kv rest ih =>
    intro d1 k h0
    obtain ⟨k1, vs⟩ := kv
    have hne : k1 ≠ k := h0 (k1, vs) (by simp)
    simp only [List.cons_append, popFrom, if_neg hne, List.append_eq]
    rw [ih d1 (fun kv2 h2 => h0 kv2 (by simp [h2]))]
    cases hp : popFrom d1 k with
    | error e => rfl
    | ok pr =>
      obtain ⟨v, d2⟩ := pr
      rfl

theorem popN_append_left : ∀ (n : Nat) {d0 : Pool} (d1 : Pool) {k : Option String},
    (∀ kv ∈ d0, kv.1 ≠ k) →
    popN n (d0 ++ d1) k =
      match popN n d1 k with
      | .error e => .error e
      | .ok (vs, d2) => .ok (vs, d0 ++ d2) := by
  intro n
  induction n with
  | zero => intro d0 d1 k _; rfl
  | succ m ih =>
    intro d0 d1 k h0
    simp only [popN]
    rw [popFrom_append_left d1 h0]
    cases hp : popFrom d1 k with
    | error e => rfl
    | ok pr =>
      obtain ⟨v, d2⟩ := pr
      simp only []
      rw [ih d2 h0]
      cases hq : popN m d2 k with
      | error e => rfl
      | ok pr2 =>
        obtain ⟨vs, d3⟩ := pr2
        rfl

theorem populateAux_append_left {labels : Option (List String)} {R : Nat} :
    ∀ (m i0 : Nat) {d0 : Pool} (d1 : Pool),
    (∀ kv ∈ d0, kv.1 ≠ (none : Option String)) →
    populateAux labels R (List.replicate m none) i0 (d0 ++ d1) =
      match populateAux labels R (List.replicate m none) i0 d1 with
      | .error e => .error e
      | .ok (cols, d2) => .ok (cols, d0 ++ d2) := by
  intro m
  induction m with
  | zero => intro i0 d0 d1 _; rfl
  | succ m2 ih =>
    intro i0 d0 d1 h0
    simp only [List.replicate_succ, populateAux]
    cases hlc : labelCell labels i0 with
    | error e => rfl
    | ok head =>
      rw [popN_append_left R d1 h0]
      cases hpn : popN R d1 none with
      | error e => rfl
      | ok pr =>
        obtain ⟨vs, d2⟩ := pr
        simp only []
        rw [ih (i0+1) d2 h0]
        cases hrec : populateAux labels R (List.replicate m2 none) (i0+1) d2 with
        | error e => rfl
        | ok pr2 =>
          obtain ⟨cols, d3⟩ := pr2
          rfl

/-! Lemmas about the shuffling step. -/

theorem shuffleEach_keys (shuf : Nat → List String → List String) :
    ∀ (d : Pool) (i : Nat),
      (shuffleEach shuf i d).map (fun kv => kv.1) = d.map (fun kv => kv.1) := by
  intro d
  induction d with
  | nil => intro i; rfl
  | cons kv rest ih => intro i; simp [shuffleEach, ih (i+1)]

theorem shuffleEach_flat_perm {shuf : Nat → List String → List String}
    (hsh : ∀ i l, (shuf i l).Perm l) :
    ∀ (d : Pool) (i : Nat), (flatPool (shuffleEach shuf i d)).Perm (flatPool d) := by
  intro d
  induction d with
  | nil => intro i; exact List.Perm.refl _
  | cons kv rest ih =>
    intro i
    simp only [shuffleEach, flatPool_cons]
    exact List.Perm.append (hsh i kv.2) (ih (i+1))

theorem shuffleEach_lookup {shuf : Nat → List String → List String} :
    ∀ {d : Pool} (i : Nat) {k : Option String} {vs : List String},
    lookupCol d k = some vs →
    ∃ j, lookupCol (shuffleEach shuf i d) k = some (shuf j vs) := by
  intro d
  induction d with
  | nil => intro i k vs h; cases h
  | cons kv rest ih =>
    intro i k vs h
    obtain ⟨k1, vs1⟩ := kv
    simp only [lookupCol] at h
    by_cases hk : k1 = k
    · rw [if_pos hk] at h
      cases h
      exact ⟨i, by simp [shuffleEach, lookupCol, hk]⟩
    · rw [if_neg hk] at h
      obtain ⟨j, hj⟩ := ih (i+1) h
      exact ⟨j, by simp [shuffleEach, lookupCol, hk, hj]⟩

/-! Lemmas about the transpose, the free-space write, and cell reads. -/

theorem transposeRow_spec : ∀ {cols : List (List String)} {i : Nat} {r : List String},
    transposeRow cols i = .ok r →
    r.length = cols.length ∧
    ∀ (j : Nat) (c : List String), getElem? cols j = some c →
      getElem? r j = getElem? c i := by
  intro cols
  induction cols with
  | nil =>
    intro i r h
    simp only [transposeRow] at h
    cases h
    refine ⟨rfl, ?_⟩
    intro j c hc
    simp at hc
  | cons c0 cs ih =>
    intro i r h
    simp only [transposeRow] at h
    cases hg : getElem? c0 i with
    | none => simp only [hg] at h; cases h
    | some v =>
      simp only [hg] at h
      cases hrec : transposeRow cs i with
      | error e => simp only [hrec] at h; cases h
      | ok r2 =>
        simp only [hrec, Except.ok.injEq] at h
        subst h
        obtain ⟨hlen, hidx⟩ := ih hrec
        refine ⟨by simp [hlen], ?_⟩
        intro j c hc
        cases j with
        | zero =>
          rw [List.getElem?_cons_zero] at hc
          cases hc
          rw [List.getElem?_cons_zero, hg]
        | succ j2 =>
          rw [List.getElem?_cons_succ] at hc
          rw [List.getElem?_cons_succ]
          exact hidx j2 c hc

theorem transposeGridAux_spec {cols : List (List String)} :
    ∀ {n i0 : Nat} {rows : List (List String)},
    transposeGridAux cols n i0 = .ok rows →
    rows.length = n ∧
    ∀ (m : Nat) (row : List String), getElem? rows m = some row →
      transposeRow cols (i0 + m) = .ok row := by
  intro n
  induction n with
  | zero =>
    intro i0 rows h
    simp only [transposeGridAux] at h
    cases h
    refine ⟨rfl, ?_⟩
    intro m row hr
    simp at hr
  | succ n2 ih =>
    intro i0 rows h
    simp only [transposeGridAux] at h
    cases htr : transposeRow cols i0 with
    | error e => simp only [htr] at h; cases h
    | ok row0 =>
      simp only [htr] at h
      cases hrec : transposeGridAux cols n2 (i0+1) with
      | error e => simp only [hrec] at h; cases h
      | ok rows2 =>
        simp only [hrec, Except.ok.injEq] at h
        subst h
        obtain ⟨hlen, hidx⟩ := ih hrec
        refine ⟨by simp [hlen], ?_⟩
        intro m row hr
        cases m with
        | zero =>
          rw [List.getElem?_cons_zero] at hr
          cases hr
          simpa using htr
        | succ m2 =>
          rw [List.getElem?_cons_succ] at hr
          have hh := hidx m2 row hr
          have harith : i0 + (m2 + 1) = (i0 + 1) + m2 := by omega
          rw [harith]
          exact hh

theorem setCell_spec {g : List (List String)} {i j : Nat} {v : String}
    {g1 : List (List String)} (h : setCell g i j v = .ok g1) :
    g1.length = g.length ∧
    (∀ (m : Nat) (r1 : List String), getElem? g1 m = some r1 →
      ∃ r, getElem? g m = some r ∧ r1.length = r.length) ∧
    getCell g1 i j = some v ∧
    (∀ (a b : Nat), (a, b) ≠ (i, j) → getCell g1 a b = getCell g a b) := by
  simp only [setCell] at h
  cases hg : getElem? g i with
  | none => simp only [hg] at h; cases h
  | some row =>
    simp only [hg] at h
    by_cases hj : j < row.length
    · rw [if_pos hj] at h
      cases h
      have hi : i < g.length := (List.getElem?_eq_some_iff.mp hg).1
      refine ⟨by simp, ?_, ?_, ?_⟩
      · intro m r1 hr1
        by_cases hm : i = m
        · subst hm
          rw [List.getElem?_set_self hi] at hr1
          cases hr1
          exact ⟨row, hg, by simp⟩
        · rw [List.getElem?_set_ne hm] at hr1
          exact ⟨r1, hr1, rfl⟩
      · simp only [getCell]
        rw [List.getElem?_set_self hi]
        simp only [Option.some_bind]
        exact List.getElem?_set_self hj
      · intro a b hab
        simp only [getCell]
        by_cases ha : i = a
        · subst ha
          rw [List.getElem?_set_self hi, hg]
          simp only [Option.some_bind]
          have hbj : j ≠ b := by
            intro hh
            exact hab (by rw [hh])
          exact List.getElem?_set_ne hbj
        · rw [List.getElem?_set_ne ha]
    · rw [if_neg hj] at h
      cases h

theorem transposeRow_error : ∀ {cols : List (List String)} {i : Nat} {e : Err},
    transposeRow cols i = .error e → e = .cellOob := by
  intro cols
  induction cols with
  | nil => intro i e h; cases h
  | cons c cs ih =>
    intro i e h
    simp only [transposeRow] at h
    cases hg : getElem? c i with
    | none => simp only [hg] at h; cases h; rfl
    | some v =>
      simp only [hg] at h
      cases hrec : transposeRow cs i with
      | error e2 =>
        simp only [hrec] at h
        cases h
        exact ih hrec
      | ok r => simp only [hrec] at h; cases h

theorem transposeGridAux_error {cols : List (List String)} :
    ∀ {n i0 : Nat} {e : Err}, transposeGridAux cols n i0 = .error e → e = .cellOob := by
  intro n
  induction n with
  | zero => intro i0 e h; cases h
  | succ n2 ih =>
    intro i0 e h
    simp only [transposeGridAux] at h
    cases htr : transposeRow cols i0 with
    | error e2 =>
      simp only [htr] at h
      cases h
      exact transposeRow_error htr
    | ok row =>
      simp only [htr] at h
      cases hrec : transposeGridAux cols n2 (i0+1) with
      | error e2 =>
        simp only [hrec] at h
        cases h
        exact ih hrec
      | ok rows => simp only [hrec] at h; cases h

theorem setCell_error {g : List (List String)} {i j : Nat} {v : String} {e : Err}
    (h : setCell g i j v = .error e) : e = .cellOob := by
  simp only [setCell] at h
  cases hg : getElem? g i with
  | none => simp only [hg] at h; cases h; rfl
  | some row =>
    simp only [hg] at h
    by_cases hj : j < row.length
    · rw [if_pos hj] at h; cases h
    · rw [if_neg hj] at h; cases h; rfl

theorem flatten_nodup_ne {P : List (List String)} (hnd : P.flatten.Nodup) :
    ∀ {j1 i1 j2 i2 : Nat} {c1 c2 : List String} {v1 v2 : String},
    getElem? P j1 = some c1 → getElem? c1 i1 = some v1 →
    getElem? P j2 = some c2 → getElem? c2 i2 = some v2 →
    (j1, i1) ≠ (j2, i2) → v1 ≠ v2 := by
  rw [List.nodup_flatten] at hnd
  obtain ⟨hall, hpair⟩ := hnd
  intro j1 i1 j2 i2 c1 c2 v1 v2 hc1 hv1 hc2 hv2 hne heq
  by_cases hj : j1 = j2
  · subst hj
    rw [hc1] at hc2
    injection hc2 with hcc
    subst hcc
    have hndc : c1.Nodup := hall c1 (List.getElem?_mem hc1)
    have hi1 : i1 < c1.length := (List.getElem?_eq_some_iff.mp hv1).1
    have hii : i1 = i2 := by
      apply List.getElem?_inj hi1 hndc
      rw [hv1, hv2, heq]
    exact hne (by rw [hii])
  · have hj1 : j1 < P.length := (List.getElem?_eq_some_iff.mp hc1).1
    have hj2 : j2 < P.length := (List.getElem?_eq_some_iff.mp hc2).1
    have e1 : P.get ⟨j1, hj1⟩ = c1 := by
      have hx := (List.getElem?_eq_some_iff.mp hc1).2
      simpa [List.get_eq_getElem] using hx
    have e2 : P.get ⟨j2, hj2⟩ = c2 := by
      have hx := (List.getElem?_eq_some_iff.mp hc2).2
      simpa [List.get_eq_getElem] using hx
    have hm1 : v1 ∈ c1 := List.getElem?_mem hv1
    have hm2 : v2 ∈ c2 := List.getElem?_mem hv2
    rcases Nat.lt_or_ge j1 j2 with hlt | hge
    · have hdis := List.pairwise_iff_get.mp hpair ⟨j1, hj1⟩ ⟨j2, hj2⟩ hlt
      rw [e1, e2] at hdis
      exact hdis hm1 (heq ▸ hm2)
    · have hlt2 : j2 < j1 := by omega
      have hdis := List.pairwise_iff_get.mp hpair ⟨j2, hj2⟩ ⟨j1, hj1⟩ hlt2
      rw [e1, e2] at hdis
      exact hdis.symm hm1 (heq ▸ hm2)

/-! Structure of a successful makeCard call. -/

theorem makeCard_ok_elim {rng : Rng} {p : CardParams} {d : Pool}
    {grid : List (List String)} (h : makeCard rng p d = .ok grid) :
    ∃ cols d1 grid0,
      populateAux p.columnLabelList p.nRows
        (colIterKeys p.scatter p.nCols (d.map (fun kv => kv.1))) 0
        (prepareShuffleDict rng.shuf p.scatter d) = .ok (cols, d1) ∧
      transposeGrid cols (labelLen p.columnLabelList + p.nRows) = .ok grid0 ∧
      ((p.useFreeSpace = true ∧
        setCell grid0 (freeRowIdx p rng) (freeColIdx p rng) star = .ok grid) ∨
       (p.useFreeSpace = false ∧ grid = grid0)) := by
  simp only [makeCard] at h
  cases hpp : populateAux p.columnLabelList p.nRows
      (colIterKeys p.scatter p.nCols (d.map (fun kv => kv.1))) 0
      (prepareShuffleDict rng.shuf p.scatter d) with
  | error e => simp only [hpp] at h; cases h
  | ok pr =>
    obtain ⟨cols, d1⟩ := pr
    simp only [hpp] at h
    have hnp : (if p.columnLabelList.isSome then p.nRows + 1 else p.nRows) =
        labelLen p.columnLabelList + p.nRows := by
      simp only [labelLen]
      by_cases hs : p.columnLabelList.isSome
      · simp [hs, Nat.add_comm]
      · simp [hs]
    rw [hnp] at h
    cases htr : transposeGrid cols (labelLen p.columnLabelList + p.nRows) with
    | error e => simp only [htr] at h; cases h
    | ok grid0 =>
      simp only [htr] at h
      cases hfs : p.useFreeSpace
      · rw [hfs] at h
        simp only [Bool.false_eq_true, if_false, Except.ok.injEq] at h
        exact ⟨cols, d1, grid0, rfl, htr, Or.inr ⟨rfl, h.symm⟩⟩
      · rw [hfs] at h
        simp only [if_true] at h
        exact ⟨cols, d1, grid0, rfl, htr, Or.inl ⟨rfl, h⟩⟩

theorem makeCard_populate_subperm {rng : Rng} {p : CardParams} {d : Pool}
    {cols : List (List String)} {d1 : Pool}
    (hsh : ∀ i l, (rng.shuf i l).Perm l)
    (h : populateAux p.columnLabelList p.nRows
        (colIterKeys p.scatter p.nCols (d.map (fun kv => kv.1))) 0
        (prepareShuffleDict rng.shuf p.scatter d) = .ok (cols, d1)) :
    ∃ pops : List (List String),
      pops.length = cols.length ∧
      (∀ (j : Nat) (c : List String), getElem? cols j = some c →
        ∃ pv, getElem? pops j = some pv ∧
          c.length = labelLen p.columnLabelList + p.nRows ∧
          c.drop (labelLen p.columnLabelList) = pv) ∧
      (∀ pv ∈ pops, pv.length = p.nRows) ∧
      pops.flatten.Subperm (flatPool d) := by
  cases hsc : p.scatter
  · rw [hsc] at h
    simp only [prepareShuffleDict, colIterKeys, Bool.false_eq_true, if_false] at h
    obtain ⟨pops, hc, hp, hidx, hall, hperm⟩ := populateAux_spec h
    refine ⟨pops, by rw [hp, hc], hidx, hall, ?_⟩
    have h1 : pops.flatten.Subperm (flatPool (shuffleEach rng.shuf 0 d)) :=
      (List.sublist_append_left _ _).subperm.trans hperm.symm.subperm
    exact h1.trans (shuffleEach_flat_perm hsh d 0).subperm
  · rw [hsc] at h
    simp only [prepareShuffleDict, colIterKeys, if_true] at h
    cases hlk : lookupCol d none with
    | some vs =>
      simp only [hlk] at h
      obtain ⟨pops, hc, hp, hidx, hall, hperm⟩ := populateAux_spec h
      refine ⟨pops, by rw [hp, hc], hidx, hall, ?_⟩
      have h1 : pops.flatten.Subperm (flatPool (setCol d none (rng.shuf 0 vs))) :=
        (List.sublist_append_left _ _).subperm.trans hperm.symm.subperm
      exact h1.trans (setCol_flat_perm hlk (hsh 0 vs)).subperm
    | none =>
      simp only [hlk] at h
      have h0 : ∀ kv ∈ d, kv.1 ≠ (none : Option String) :=
        lookupCol_none_iff.mp hlk
      rw [populateAux_append_left p.nCols 0
        [(none, rng.shuf 0 (flatPool d))] h0] at h
      cases hrec : populateAux p.columnLabelList p.nRows
          (List.replicate p.nCols none) 0 [(none, rng.shuf 0 (flatPool d))] with
      | error e => simp only [hrec] at h; cases h
      | ok pr =>
        obtain ⟨cols2, d2⟩ := pr
        simp only [hrec, Except.ok.injEq, Prod.mk.injEq] at h
        obtain ⟨h1, h2⟩ := h
        subst h1
        obtain ⟨pops, hc, hp, hidx, hall, hperm⟩ := populateAux_spec hrec
        refine ⟨pops, by rw [hp, hc], hidx, hall, ?_⟩
        have hflat : flatPool [((none : Option String), rng.shuf 0 (flatPool d))] =
            rng.shuf 0 (flatPool d) := by
          simp [flatPool]
        rw [hflat] at hperm
        have hx : pops.flatten.Subperm (rng.shuf 0 (flatPool d)) :=
          (List.sublist_append_left _ _).subperm.trans hperm.symm.subperm
        exact hx.trans (hsh 0 (flatPool d)).subperm

theorem makeCard_cell_elim {rng : Rng} {p : CardParams} {d : Pool}
    {grid : List (List String)}
    (hsh : ∀ i l, (rng.shuf i l).Perm l)
    (hok : makeCard rng p d = .ok grid) :
    ∃ pops : List (List String),
      (∀ pv ∈ pops, pv.length = p.nRows) ∧
      pops.flatten.Subperm (flatPool d) ∧
      ∀ (i j : Nat) (v : String),
        labelLen p.columnLabelList ≤ i →
        (p.useFreeSpace = true → (i, j) ≠ (freeRowIdx p rng, freeColIdx p rng)) →
        getCell grid i j = some v →
        ∃ pv, getElem? pops j = some pv ∧
          getElem? pv (i - labelLen p.columnLabelList) = some v := by
  obtain ⟨cols, d1, grid0, hpp, htr, hfree⟩ := makeCard_ok_elim hok
  obtain ⟨pops, hplen, hidx, hall, hsub⟩ := makeCard_populate_subperm hsh hpp
  refine ⟨pops, hall, hsub, ?_⟩
  intro i j v hd hf hg
  have hg0 : getCell grid0 i j = some v := by
    rcases hfree with ⟨hfs, hset⟩ | ⟨hfs, heq⟩
    · obtain ⟨_, _, _, hoth⟩ := setCell_spec hset
      rw [← hoth i j (hf hfs)]
      exact hg
    · rw [← heq]
      exact hg
  simp only [getCell] at hg0
  cases hrow : getElem? grid0 i with
  | none => rw [hrow] at hg0; cases hg0
  | some row =>
    rw [hrow] at hg0
    simp only [Option.some_bind] at hg0
    obtain ⟨hglen, hgrow⟩ := transposeGridAux_spec htr
    have hrowok := hgrow i row hrow
    rw [Nat.zero_add] at hrowok
    obtain ⟨hrlen, hrget⟩ := transposeRow_spec hrowok
    have hjlt : j < cols.length := by
      have := (List.getElem?_eq_some_iff.mp hg0).1
      omega
    obtain ⟨c, hc⟩ : ∃ c, getElem? cols j = some c :=
      ⟨_, List.getElem?_eq_getElem hjlt⟩
    have hcv : getElem? c i = some v := by
      rw [← hrget j c hc]
      exact hg0
    obtain ⟨pv, hpv, hclen, hcdrop⟩ := hidx j c hc
    refine ⟨pv, hpv, ?_⟩
    rw [← hcdrop, List.getElem?_drop]
    have harith : labelLen p.columnLabelList + (i - labelLen p.columnLabelList) = i := by
      omega
    rw [harith]
    exact hcv

/-- C2: for a pool whose values are pairwise distinct across all columns,
every generated card's non-free data cells hold pairwise distinct values
drawn from the union of the pools. Positions are printed-grid (row,
column); data positions lie at or below the optional label row and, when
the free space is on, differ from the free cell. -/
theorem card_cells_distinct_and_from_pool (rng : Rng) (p : CardParams) (d : Pool)
    (grid : List (List String))
    (hsh : ∀ i l, (rng.shuf i l).Perm l)
    (hnd : (flatPool d).Nodup)
    (hok : makeCard rng p d = .ok grid)
    (i1 j1 i2 j2 : Nat) (v1 v2 : String)
    (hd1 : labelLen p.columnLabelList ≤ i1)
    (hd2 : labelLen p.columnLabelList ≤ i2)
    (hf1 : p.useFreeSpace = true → (i1, j1) ≠ (freeRowIdx p rng, freeColIdx p rng))
    (hf2 : p.useFreeSpace = true → (i2, j2) ≠ (freeRowIdx p rng, freeColIdx p rng))
    (hg1 : getCell grid i1 j1 = some v1)
    (hg2 : getCell grid i2 j2 = some v2)
    (hne : (i1, j1) ≠ (i2, j2)) :
    v1 ∈ flatPool d ∧ v1 ≠ v2 := by
  obtain ⟨pops, hall, hsub, hcell⟩ := makeCard_cell_elim hsh hok
  obtain ⟨pv1, hpv1, hv1⟩ := hcell i1 j1 v1 hd1 hf1 hg1
  obtain ⟨pv2, hpv2, hv2⟩ := hcell i2 j2 v2 hd2 hf2 hg2
  constructor
  · apply hsub.subset
    rw [List.mem_flatten]
    exact ⟨pv1, List.getElem?_mem hpv1, List.getElem?_mem hv1⟩
  · have hndf : pops.flatten.Nodup := by
      obtain ⟨l2, hperm, hsl⟩ := hsub
      exact hperm.nodup (hsl.nodup hnd)
    apply flatten_nodup_ne hndf hpv1 hv1 hpv2 hv2
    intro hpair
    injection hpair with ha hb
    apply hne
    have hii : i1 = i2 := by omega
    rw [hii, ha]

/-- C2 witness: on a concrete labeled 3x3 card, the non-free data cells
(1,0) and (1,1) carry the distinct pool values "3" and "6". -/
theorem card_cells_distinct_witness : "3" ∈ flatPool pool3 ∧ "3" ≠ "6" :=
  card_cells_distinct_and_from_pool rngId params3 pool3 grid3
    (fun _ _ => List.Perm.refl _) (by decide) rfl 1 0 1 1 "3" "6"
    (by decide) (by decide) (fun _ => by decide) (fun _ => by decide)
    rfl rfl (by decide)

/-- C3: with useFreeSpace on, the free cell's printed row index is
floor(R/2) plus the label-row shift when R is odd and is the randint draw
(which ranges over [0, R-1]) plus the shift when R is even; its column is
floor(C/2) when C is odd and the randint draw in [0, C-1] when C is even;
the chosen cell is overwritten with the star marker, and when the star is
not among the pool values no non-free data cell equals it — the marker is
not one of the drawn values. -/
theorem free_cell_placement (rng : Rng) (p : CardParams) (d : Pool)
    (grid : List (List String))
    (hsh : ∀ i l, (rng.shuf i l).Perm l)
    (hfree : p.useFreeSpace = true)
    (hrR : p.nRows % 2 = 0 → rng.rRow < p.nRows)
    (hrC : p.nCols % 2 = 0 → rng.rCol < p.nCols)
    (hok : makeCard rng p d = .ok grid) :
    (p.nRows % 2 = 1 →
      freeRowIdx p rng = p.nRows / 2 + labelLen p.columnLabelList) ∧
    (p.nRows % 2 = 0 →
      freeRowIdx p rng = rng.rRow + labelLen p.columnLabelList ∧
      rng.rRow < p.nRows) ∧
    (p.nCols % 2 = 1 → freeColIdx p rng = p.nCols / 2) ∧
    (p.nCols % 2 = 0 → freeColIdx p rng = rng.rCol ∧ rng.rCol < p.nCols) ∧
    getCell grid (freeRowIdx p rng) (freeColIdx p rng) = some star ∧
    (star ∉ flatPool d →
      ∀ (i j : Nat) (v : String), labelLen p.columnLabelList ≤ i →
        (i, j) ≠ (freeRowIdx p rng, freeColIdx p rng) →
        getCell grid i j = some v → v ≠ star) := by
  refine ⟨?_, ?_, ?_, ?_, ?_, ?_⟩
  · intro hodd
    simp only [freeRowIdx]
    rw [if_pos (by omega)]
  · intro heven
    refine ⟨?_, hrR heven⟩
    simp only [freeRowIdx]
    rw [if_neg (by omega)]
  · intro hodd
    simp only [freeColIdx]
    rw [if_pos (by omega)]
  · intro heven
    refine ⟨?_, hrC heven⟩
    simp only [freeColIdx]
    rw [if_neg (by omega)]
  · obtain ⟨cols, d1, grid0, hpp, htr, hfr⟩ := makeCard_ok_elim hok
    rcases hfr with ⟨_, hset⟩ | ⟨hfs, _⟩
    · exact (setCell_spec hset).2.2.1
    · rw [hfree] at hfs
      cases hfs
  · intro hstar i j v hd hf hg
    obtain ⟨pops, hall, hsub, hcell⟩ := makeCard_cell_elim hsh hok
    obtain ⟨pv, hpv, hv⟩ := hcell i j v hd (fun _ => hf) hg
    intro heq
    apply hstar
    rw [← heq]
    apply hsub.subset
    rw [List.mem_flatten]
    exact ⟨pv, List.getElem?_mem hpv, List.getElem?_mem hv⟩

/-- C3 witness: on the concrete labeled 3x3 card the star sits at printed
cell (2,1) — the data center shifted one row down by the label row — and
non-free data cells are pool values, not the marker. -/
theorem free_cell_placement_witness :
    (params3.nRows % 2 = 1 →
      freeRowIdx params3 rngId = params3.nRows / 2 + labelLen params3.columnLabelList) ∧
    (params3.nRows % 2 = 0 →
      freeRowIdx params3 rngId = rngId.rRow + labelLen params3.columnLabelList ∧
      rngId.rRow < params3.nRows) ∧
    (params3.nCols % 2 = 1 → freeColIdx params3 rngId = params3.nCols / 2) ∧
    (params3.nCols % 2 = 0 →
      freeColIdx params3 rngId = rngId.rCol ∧ rngId.rCol < params3.nCols) ∧
    getCell grid3 (freeRowIdx params3 rngId) (freeColIdx params3 rngId) = some star ∧
    (star ∉ flatPool pool3 →
      ∀ (i j : Nat) (v : String), labelLen params3.columnLabelList ≤ i →
        (i, j) ≠ (freeRowIdx params3 rngId, freeColIdx params3 rngId) →
        getCell grid3 i j = some v → v ≠ star) :=
  free_cell_placement rngId params3 pool3 grid3 (fun _ _ => List.Perm.refl _)
    rfl (fun _ => by decide) (fun _ => by decide) rfl

/-- C10: with scatter off, make_cards iterates the dict's keys as the
column slots, so every row of a produced grid holds exactly one cell per
pool key — in particular a single unlabeled pool yields one-column grids
rather than nCols-column grids. -/
theorem nonscatter_row_width (rng : Rng) (p : CardParams) (d : Pool)
    (grid : List (List String))
    (hs : p.scatter = false)
    (hok : makeCard rng p d = .ok grid) :
    grid.length = labelLen p.columnLabelList + p.nRows ∧
    ∀ row ∈ grid, row.length = d.length := by
  obtain ⟨cols, d1, grid0, hpp, htr, hfr⟩ := makeCard_ok_elim hok
  obtain ⟨pops, hc, hp, hidx, hall, hperm⟩ := populateAux_spec hpp
  have hks : cols.length = d.length := by
    rw [hc]
    simp [colIterKeys, hs]
  obtain ⟨hglen, hgrow⟩ := transposeGridAux_spec htr
  have hrow0 : ∀ row ∈ grid0, row.length = d.length := by
    intro row hrow
    obtain ⟨m, hm⟩ := List.mem_iff_getElem?.mp hrow
    have hrok := hgrow m row hm
    rw [Nat.zero_add] at hrok
    have hsp := transposeRow_spec hrok
    rw [hsp.1]
    exact hks
  rcases hfr with ⟨_, hset⟩ | ⟨_, heq⟩
  · obtain ⟨hlen1, hrows1, _, _⟩ := setCell_spec hset
    constructor
    · rw [hlen1, hglen]
    · intro row hrow
      obtain ⟨m, hm⟩ := List.mem_iff_getElem?.mp hrow
      obtain ⟨r0, hr0, hrl⟩ := hrows1 m row hm
      rw [hrl]
      exact hrow0 r0 (List.getElem?_mem hr0)
  · subst heq
    exact ⟨by rw [hglen], hrow0⟩

/-- C10 witness: a single unlabeled pool, scatter off, 3x3 size: the grid
has 3 rows of exactly one cell each, not nCols = 3 cells. -/
theorem nonscatter_row_width_witness :
    gridU.length = labelLen paramsU.columnLabelList + paramsU.nRows ∧
    ∀ row ∈ gridU, row.length = poolU.length :=
  nonscatter_row_width rngId paramsU poolU gridU rfl rfl

/-! Safety of the pops under the documented pool-size preconditions. -/

theorem labelCell_error {labels : Option (List String)} {i : Nat} {e : Err}
    (h : labelCell labels i = .error e) : e = .labelOob := by
  cases labels with
  | none => simp only [labelCell] at h; cases h
  | some ls =>
    simp only [labelCell] at h
    cases hg : getElem? ls i with
    | none => rw [hg] at h; cases h; rfl
    | some l => rw [hg] at h; cases h

theorem populateAux_keys_no_popEmpty {labels : Option (List String)} {R : Nat} :
    ∀ (ks : List (Option String)) (i0 : Nat) (d : Pool),
    ks.Nodup → (∀ k ∈ ks, ∃ vs, lookupCol d k = some vs ∧ R ≤ vs.length) →
    ∀ e, populateAux labels R ks i0 d = .error e → e = .labelOob := by
  intro ks
  induction ks with
  | nil =>
    intro i0 d _ _ e h
    simp only [populateAux] at h
    cases h
  | cons k ks ih =>
    intro i0 d hnd hsub e h
    simp only [populateAux] at h
    cases hlc : labelCell labels i0 with
    | error e2 =>
      simp only [hlc] at h
      cases h
      exact labelCell_error hlc
    | ok head =>
      simp only [hlc] at h
      obtain ⟨vs, hvs, hlen⟩ := hsub k (by simp)
      obtain ⟨⟨vsp, dp⟩, hpn⟩ := popN_isOk hvs hlen
      simp only [hpn] at h
      cases hrec : populateAux labels R ks (i0+1) dp with
      | ok pr2 =>
        obtain ⟨cols2, d2⟩ := pr2
        simp only [hrec] at h
        cases h
      | error e2 =>
        simp only [hrec] at h
        injection h with hb
        subst hb
        refine ih (i0+1) dp (List.nodup_cons.mp hnd).2 ?_ e2 hrec
        intro k2 hk2
        obtain ⟨vs2, hvs2, hlen2⟩ := hsub k2 (by simp [hk2])
        have hne : k2 ≠ k := by
          intro hh
          subst hh
          exact (List.nodup_cons.mp hnd).1 hk2
        obtain ⟨hpres, _⟩ := popN_lookup hpn
        refine ⟨vs2, ?_, hlen2⟩
        rw [hpres k2 hne]
        exact hvs2

theorem populateAux_none_no_popEmpty {labels : Option (List String)} {R : Nat} :
    ∀ (m i0 : Nat) (d : Pool) (vs : List String),
    lookupCol d none = some vs → m * R ≤ vs.length →
    ∀ e, populateAux labels R (List.replicate m none) i0 d = .error e →
      e = .labelOob := by
  intro m
  induction m with
  | zero =>
    intro i0 d vs _ _ e h
    simp only [List.replicate, populateAux] at h
    cases h
  | succ m2 ih =>
    intro i0 d vs hlk hlen e h
    simp only [List.replicate_succ, populateAux] at h
    cases hlc : labelCell labels i0 with
    | error e2 =>
      simp only [hlc] at h
      cases h
      exact labelCell_error hlc
    | ok head =>
      simp only [hlc] at h
      have hsm : (m2 + 1) * R = m2 * R + R := by ring
      have hR : R ≤ vs.length := by omega
      obtain ⟨⟨vsp, dp⟩, hpn⟩ := popN_isOk hlk hR
      simp only [hpn] at h
      obtain ⟨_, hself⟩ := popN_lookup hpn
      obtain ⟨l1, hl1, hlen1⟩ := hself vs hlk
      cases hrec : populateAux labels R (List.replicate m2 none) (i0+1) dp with
      | ok pr2 =>
        obtain ⟨cols2, d2⟩ := pr2
        simp only [hrec] at h
        cases h
      | error e2 =>
        simp only [hrec] at h
        injection h with hb
        subst hb
        refine ih (i0+1) dp l1 hl1 ?_ e2 hrec
        omega

/-- C9: under the documented preconditions — every column of a labeled
pool holds at least nRows values with non-scatter, and the merged pool
holds at least nRows*nCols values with scatter — no pop performed while
populating a card ever hits an empty list: the empty-pop IndexError
branch is unreachable (keys of a Python dict are unique, hence the
Nodup-keys hypothesis). -/
theorem pops_never_empty (rng : Rng) (p : CardParams) (d : Pool)
    (hsh : ∀ i l, (rng.shuf i l).Perm l)
    (hkeys : (d.map (fun kv => kv.1)).Nodup)
    (hcols : p.scatter = false → ∀ kv ∈ d, p.nRows ≤ kv.2.length)
    (hmerge : p.scatter = true → p.nRows * p.nCols ≤ (mergedPool d).length) :
    makeCard rng p d ≠ .error .popEmpty := by
  intro hbad
  simp only [makeCard] at hbad
  cases hpp : populateAux p.columnLabelList p.nRows
      (colIterKeys p.scatter p.nCols (d.map (fun kv => kv.1))) 0
      (prepareShuffleDict rng.shuf p.scatter d) with
  | ok pr =>
    obtain ⟨cols, d1⟩ := pr
    simp only [hpp] at hbad
    cases htr : transposeGrid cols
        (if p.columnLabelList.isSome then p.nRows + 1 else p.nRows) with
    | error e =>
      simp only [htr] at hbad
      injection hbad with hb
      have hcell := transposeGridAux_error htr
      rw [hb] at hcell
      cases hcell
    | ok grid0 =>
      simp only [htr] at hbad
      cases hfs : p.useFreeSpace
      · rw [hfs] at hbad
        simp at hbad
      · rw [hfs] at hbad
        simp only [if_true] at hbad
        have hcell := setCell_error hbad
        cases hcell
  | error e =>
    simp only [hpp] at hbad
    injection hbad with hb
    subst hb
    cases hsc : p.scatter
    · rw [hsc] at hpp
      simp only [prepareShuffleDict, colIterKeys, Bool.false_eq_true, if_false] at hpp
      have hsub : ∀ k ∈ d.map (fun kv => kv.1),
          ∃ vs, lookupCol (shuffleEach rng.shuf 0 d) k = some vs ∧
            p.nRows ≤ vs.length := by
        intro k hk
        obtain ⟨vs, hvs⟩ := mem_keys_lookup hk
        obtain ⟨jj, hj⟩ := shuffleEach_lookup 0 hvs
        refine ⟨rng.shuf jj vs, hj, ?_⟩
        have hlenp : (rng.shuf jj vs).length = vs.length := (hsh jj vs).length_eq
        have hge : p.nRows ≤ vs.length := hcols hsc (k, vs) (lookupCol_mem hvs)
        omega
      have hlab := populateAux_keys_no_popEmpty (d.map (fun kv => kv.1)) 0
        (shuffleEach rng.shuf 0 d) hkeys hsub .popEmpty hpp
      cases hlab
    · rw [hsc] at hpp
      simp only [prepareShuffleDict, colIterKeys, if_true] at hpp
      have hm := hmerge hsc
      cases hlk : lookupCol d none with
      | some vs =>
        simp only [hlk] at hpp
        have hlk2 : lookupCol (setCol d none (rng.shuf 0 vs)) none =
            some (rng.shuf 0 vs) := lookupCol_setCol_self _ hlk
        have hlen : p.nCols * p.nRows ≤ (rng.shuf 0 vs).length := by
          rw [Nat.mul_comm]
          have h1 := (hsh 0 vs).length_eq
          have h2 : (mergedPool d).length = vs.length := by
            simp [mergedPool, hlk]
          omega
        have hlab := populateAux_none_no_popEmpty p.nCols 0
          (setCol d none (rng.shuf 0 vs)) (rng.shuf 0 vs) hlk2 hlen .popEmpty hpp
        cases hlab
      | none =>
        simp only [hlk] at hpp
        have h0 : ∀ kv ∈ d, kv.1 ≠ (none : Option String) :=
          lookupCol_none_iff.mp hlk
        have hlk2 : lookupCol (d ++ [(none, rng.shuf 0 (flatPool d))]) none =
            some (rng.shuf 0 (flatPool d)) := by
          rw [lookupCol_append_left _ h0]
          simp [lookupCol]
        have hlen : p.nCols * p.nRows ≤ (rng.shuf 0 (flatPool d)).length := by
          rw [Nat.mul_comm]
          have h1 := (hsh 0 (flatPool d)).length_eq
          have h2 : (mergedPool d).length = (flatPool d).length := by
            simp [mergedPool, hlk]
          omega
        have hlab := populateAux_none_no_popEmpty p.nCols 0
          (d ++ [(none, rng.shuf 0 (flatPool d))]) (rng.shuf 0 (flatPool d))
          hlk2 hlen .popEmpty hpp
        cases hlab

/-- C9 witness: the concrete labeled 3x3 pool meets the preconditions and
its generation never returns the empty-pop error. -/
theorem pops_never_empty_witness : makeCard rngId params3 pool3 ≠ .error .popEmpty :=
  pops_never_empty rngId params3 pool3 (fun _ _ => List.Perm.refl _)
    (by decide) (fun _ => by decide) (fun h => absurd h (by decide))

end Bingo
